import Mathlib

/-
Verification of the qt-linguist QM codec, message store and plural-rule table.

Shallow embedding conventions, used throughout:
- Python bytes values are embedded as List Nat, one element per byte.
- A Python str is embedded by its UTF-8 byte sequence for the fields that the
  code encodes and decodes as UTF-8 (context, sourceText, comment, id and
  language code), and by its UTF-16 code-unit sequence for translation strings,
  which the code only ever encodes and decodes as UTF-16.  On well-formed
  strings both embeddings are faithful: equality of strings coincides with
  equality of the embedded sequences.
- Python dicts are embedded as association lists updated in place
  (assocUpd), which preserves the insertion order that dict iteration uses.
- A raised-and-uncaught Python exception is embedded as an error value
  (Option none, or a PyResult value carrying the exception class).
- int.to_bytes(k) raises OverflowError outside [0, 2^(8k)); the embeddings
  uint8, uint16, uint32 mask to that range, and every theorem that exercises
  them carries the range hypotheses under which the Python code does not raise.
-/

namespace QtLinguist

/-! ## Byte-level helpers (qm.py read8 / read32 / uintN and Python bytes order) -/

/-- Big-endian value of a byte list, as int.from_bytes(bs, "big") computes it. -/
def beNat (bs : List Nat) : Nat := bs.foldl (fun a b => a * 256 + b) 0

/-- qm.py read8: int.from_bytes(data[:1], "big"). -/
def read8 (data : List Nat) : Nat := beNat (data.take 1)

/-- qm.py read32 with signed=False: int.from_bytes(data[:4], "big"). -/
def read32 (data : List Nat) : Nat := beNat (data.take 4)

/-- qm.py read32 with signed=True: int.from_bytes(data[:4], "big", signed=True);
fewer than four bytes are interpreted at their own width, as in Python. -/
def read32s (data : List Nat) : Int :=
  if 2 * beNat (data.take 4) < 2 ^ (8 * (data.take 4).length) then
    (beNat (data.take 4) : Int)
  else (beNat (data.take 4) : Int) - 2 ^ (8 * (data.take 4).length)

/-- qm.py uint8: n.to_bytes(1, "big", signed=False) for n < 2^8. -/
def uint8 (n : Nat) : List Nat := [n % 256]

/-- qm.py uint16: n.to_bytes(2, "big", signed=False) for n < 2^16. -/
def uint16 (n : Nat) : List Nat := [n / 256 % 256, n % 256]

/-- qm.py uint32: n.to_bytes(4, "big", signed=False) for n < 2^32.  Python
raises OverflowError outside that range; the one call site that can receive
an out-of-range value (the offset-array build over unbounded elfHash values
in Releaser.squeeze) carries an explicit 32-bit check in squeezeGo, and every
other application is guarded by range hypotheses of the theorems using it. -/
def uint32 (n : Nat) : List Nat :=
  [n / 16777216 % 256, n / 65536 % 256, n / 256 % 256, n % 256]

theorem uint32_length (n : Nat) : (uint32 n).length = 4 := rfl

theorem read32_uint32_append (n : Nat) (rest : List Nat) (h : n < 4294967296) :
    read32 (uint32 n ++ rest) = n := by
  simp only [read32, uint32, beNat, List.cons_append, List.nil_append, List.take,
    List.foldl]
  omega

theorem drop_uint32_append (n : Nat) (rest : List Nat) :
    (uint32 n ++ rest).drop 4 = rest := rfl

/-! ## Python comparison of bytes objects (lexicographic, shorter prefix first) -/

/-- Python bytes comparison a < b. -/
def bytesLt : List Nat → List Nat → Bool
  | [], [] => false
  | [], _ :: _ => true
  | _ :: _, [] => false
  | a :: as_, b :: bs => if a < b then true else if b < a then false else bytesLt as_ bs

theorem bytesLt_irrefl : ∀ a : List Nat, bytesLt a a = false := by
  intro a
  induction a with
  | nil => rfl
  | cons x xs ih => simp [bytesLt, ih]

theorem bytesLt_asymm : ∀ a b : List Nat, bytesLt a b = true → bytesLt b a = false := by
  intro a
  induction a with
  | nil => intro b h; cases b <;> simp [bytesLt]
  | cons x xs ih =>
    intro b h
    cases b with
    | nil => simp [bytesLt] at h
    | cons y ys =>
      simp only [bytesLt] at h ⊢
      by_cases hxy : x < y
      · have hyx : ¬ y < x := by omega
        simp [hxy, hyx]
      · by_cases hyx : y < x
        · simp [hxy, hyx] at h
        · simp only [hxy, hyx, if_false] at h ⊢
          exact ih ys h

theorem bytesLt_trans :
    ∀ a b c : List Nat, bytesLt a b = true → bytesLt b c = true → bytesLt a c = true := by
  intro a
  induction a with
  | nil =>
    intro b c hab hbc
    cases b with
    | nil => simp [bytesLt] at hab
    | cons y ys =>
      cases c with
      | nil => simp [bytesLt] at hbc
      | cons z zs => simp [bytesLt]
  | cons x xs ih =>
    intro b c hab hbc
    cases b with
    | nil => simp [bytesLt] at hab
    | cons y ys =>
      cases c with
      | nil => simp [bytesLt] at hbc
      | cons z zs =>
        simp only [bytesLt] at hab hbc ⊢
        by_cases hxy : x < y
        · by_cases hyz : y < z
          · have : x < z := by omega
            simp [this]
          · by_cases hzy : z < y
            · simp [hxy, hyz, hzy] at hbc
            · have hyzeq : y = z := by omega
              subst hyzeq
              simp [hxy]
        · by_cases hyx : y < x
          · simp [hxy, hyx] at hab
          · have hxyeq : x = y := by omega
            subst hxyeq
            simp only [hxy, if_false, bytesLt_irrefl] at hab ⊢
            by_cases hyz : x < z
            · simp [hyz]
            · by_cases hzy : z < x
              · simp [hyz, hzy] at hbc
              · simp only [hyz, hzy, if_false] at hbc ⊢
                exact ih ys zs hab hbc

theorem bytesLt_total_of_ne :
    ∀ a b : List Nat, a ≠ b → bytesLt a b = true ∨ bytesLt b a = true := by
  intro a
  induction a with
  | nil =>
    intro b hne
    cases b with
    | nil => exact absurd rfl hne
    | cons y ys => left; rfl
  | cons x xs ih =>
    intro b hne
    cases b with
    | nil => right; rfl
    | cons y ys =>
      by_cases hxy : x < y
      · left; simp [bytesLt, hxy]
      · by_cases hyx : y < x
        · right; simp [bytesLt, hyx]
        · have hxyeq : x = y := by omega
          subst hxyeq
          have hne' : xs ≠ ys := by
            intro h; exact hne (by rw [h])
          rcases ih ys hne' with h | h
          · left; simpa [bytesLt, hxy, hyx] using h
          · right; simpa [bytesLt, hxy, hyx] using h

/-! ## The stable sort used by Python sorted(...) (insertion after equal keys) -/

/-- Insert x after every element it is not strictly below; with a strict weak
order lt this reproduces the position a stable sort gives to x. -/
def pyInsert (lt : α → α → Bool) (x : α) : List α → List α
  | [] => [x]
  | y :: ys => if lt x y then x :: y :: ys else y :: pyInsert lt x ys

/-- The result of Python sorted(l) for a comparison lt that is a strict weak
order: a stable insertion sort. -/
def pySort (lt : α → α → Bool) (l : List α) : List α :=
  l.foldl (fun acc x => pyInsert lt x acc) []

theorem pyInsert_perm (lt : α → α → Bool) (x : α) :
    ∀ l : List α, (pyInsert lt x l).Perm (x :: l) := by
  intro l
  induction l with
  | nil => simp [pyInsert]
  | cons y ys ih =>
    simp only [pyInsert]
    by_cases h : lt x y
    · simp [h]
    · simp only [h, if_false]
      exact (List.Perm.cons y ih).trans (List.Perm.swap x y ys)

theorem pySort_go_perm (lt : α → α → Bool) :
    ∀ (l acc : List α), (l.foldl (fun acc x => pyInsert lt x acc) acc).Perm (acc ++ l) := by
  intro l
  induction l with
  | nil => intro acc; simp
  | cons x xs ih =>
    intro acc
    simp only [List.foldl_cons]
    have h1 := ih (pyInsert lt x acc)
    have h2 : (pyInsert lt x acc ++ xs).Perm (acc ++ x :: xs) := by
      have := (pyInsert_perm lt x acc).append_right xs
      exact this.trans (List.perm_middle.symm)
    exact h1.trans h2

theorem pySort_perm (lt : α → α → Bool) (l : List α) : (pySort lt l).Perm l := by
  simpa using pySort_go_perm lt l []

theorem mem_pyInsert (lt : α → α → Bool) (x z : α) (l : List α) :
    z ∈ pyInsert lt x l → z = x ∨ z ∈ l := by
  intro hz
  have := (pyInsert_perm lt x l).mem_iff.mp hz
  simpa using this

theorem pyInsert_pairwise (lt : α → α → Bool)
    (htrans : ∀ a b c, lt a b = true → lt b c = true → lt a c = true)
    (hasymm : ∀ a b, lt a b = true → lt b a = false)
    (x : α) :
    ∀ l : List α, l.Pairwise (fun a b => lt b a = false) →
      (pyInsert lt x l).Pairwise (fun a b => lt b a = false) := by
  intro l
  induction l with
  | nil => intro _; simp [pyInsert]
  | cons y ys ih =>
    intro hp
    rcases List.pairwise_cons.mp hp with ⟨hy, hys⟩
    simp only [pyInsert]
    by_cases h : lt x y
    · simp only [h, if_true]
      refine List.pairwise_cons.mpr ⟨?_, hp⟩
      intro z hz
      rcases List.mem_cons.mp hz with rfl | hz
      · exact hasymm x z h
      · have hzy := hy z hz
        by_cases hzx : lt z x
        · have : lt z y = true := htrans z x y hzx h
          rw [this] at hzy; cases hzy
        · simpa using hzx
    · simp only [h, if_false]
      refine List.pairwise_cons.mpr ⟨?_, ih hys⟩
      intro z hz
      rcases mem_pyInsert lt x z ys hz with rfl | hz
      · simpa using h
      · exact hy z hz

theorem pySort_pairwise (lt : α → α → Bool)
    (htrans : ∀ a b c, lt a b = true → lt b c = true → lt a c = true)
    (hasymm : ∀ a b, lt a b = true → lt b a = false)
    (l : List α) :
    (pySort lt l).Pairwise (fun a b => lt b a = false) := by
  suffices h : ∀ (l acc : List α), acc.Pairwise (fun a b => lt b a = false) →
      (l.foldl (fun acc x => pyInsert lt x acc) acc).Pairwise (fun a b => lt b a = false) by
    exact h l [] (by simp)
  intro l
  induction l with
  | nil => intro acc hacc; simpa using hacc
  | cons x xs ih =>
    intro acc hacc
    simp only [List.foldl_cons]
    exact ih (pyInsert lt x acc) (pyInsert_pairwise lt htrans hasymm x acc hacc)

/-! ## qm.py elfHash

Python integers do not wrap at 32 bits, so h <<= 4 can carry into bit 32 and
beyond; h &= ~g only clears the four bits of g (bits 28..31).  The embedding
mirrors that exactly: h & ~g on non-negative Python ints equals h ^ (h & g). -/

def elfHashStep (h k : Nat) : Nat :=
  let h1 := (h <<< 4) + k
  let g := h1 &&& 0xF0000000
  let h2 := if g ≠ 0 then h1 ^^^ (g >>> 24) else h1
  h2 ^^^ (h2 &&& g)

def elfHash (ba : List Nat) : Nat :=
  let h := ba.foldl elfHashStep 0
  if h = 0 then 1 else h

/-! ## The context hash table size staircase (Releaser.squeeze, qm.py lines 294-306) -/

def hTableSize (contextCount : Nat) : Nat :=
  if contextCount < 60 then 151
  else if contextCount < 200 then 503
  else if contextCount < 750 then 1511
  else if contextCount < 2500 then 5003
  else if contextCount < 10000 then 15013
  else 3 * contextCount / 2

/-! ## QLocale language and territory identifiers

The code compares QLocale.Language and QLocale.Country values only for
equality, so the enumeration is embedded as distinct natural-number codes,
one constant per enumerator the repository mentions. -/

namespace QLocale

def AnyLanguage : Nat := 0
def C : Nat := 1
def Bislama : Nat := 2
def Burmese : Nat := 3
def Chinese : Nat := 4
def Dzongkha : Nat := 5
def Fijian : Nat := 6
def Guarani : Nat := 7
def Hungarian : Nat := 8
def Indonesian : Nat := 9
def Japanese : Nat := 10
def Javanese : Nat := 11
def Korean : Nat := 12
def Malay : Nat := 13
def NauruLanguage : Nat := 14
def Oromo : Nat := 15
def Persian : Nat := 16
def Sundanese : Nat := 17
def Tatar : Nat := 18
def Thai : Nat := 19
def Tibetan : Nat := 20
def Turkish : Nat := 21
def Vietnamese : Nat := 22
def Yoruba : Nat := 23
def Zhuang : Nat := 24
def Abkhazian : Nat := 25
def Afar : Nat := 26
def Afrikaans : Nat := 27
def Albanian : Nat := 28
def Amharic : Nat := 29
def Assamese : Nat := 30
def Aymara : Nat := 31
def Azerbaijani : Nat := 32
def Bashkir : Nat := 33
def Basque : Nat := 34
def Bengali : Nat := 35
def Bulgarian : Nat := 36
def Catalan : Nat := 37
def Cornish : Nat := 38
def Corsican : Nat := 39
def Danish : Nat := 40
def Dutch : Nat := 41
def English : Nat := 42
def Esperanto : Nat := 43
def Estonian : Nat := 44
def Faroese : Nat := 45
def Finnish : Nat := 46
def Friulian : Nat := 47
def WesternFrisian : Nat := 48
def Galician : Nat := 49
def Georgian : Nat := 50
def German : Nat := 51
def Greek : Nat := 52
def Greenlandic : Nat := 53
def Gujarati : Nat := 54
def Hausa : Nat := 55
def Hebrew : Nat := 56
def Hindi : Nat := 57
def Interlingua : Nat := 58
def Interlingue : Nat := 59
def Italian : Nat := 60
def Kannada : Nat := 61
def Kashmiri : Nat := 62
def Kazakh : Nat := 63
def Khmer : Nat := 64
def Kinyarwanda : Nat := 65
def Kirghiz : Nat := 66
def Kurdish : Nat := 67
def Lao : Nat := 68
def Latin : Nat := 69
def Lingala : Nat := 70
def Luxembourgish : Nat := 71
def Malagasy : Nat := 72
def Malayalam : Nat := 73
def Marathi : Nat := 74
def Mongolian : Nat := 75
def Nepali : Nat := 76
def NorthernSotho : Nat := 77
def NorwegianBokmal : Nat := 78
def NorwegianNynorsk : Nat := 79
def Occitan : Nat := 80
def Oriya : Nat := 81
def Pashto : Nat := 82
def Portuguese : Nat := 83
def Punjabi : Nat := 84
def Quechua : Nat := 85
def Romansh : Nat := 86
def Rundi : Nat := 87
def Shona : Nat := 88
def Sindhi : Nat := 89
def Sinhala : Nat := 90
def Somali : Nat := 91
def SouthernSotho : Nat := 92
def Spanish : Nat := 93
def Swahili : Nat := 94
def Swati : Nat := 95
def Swedish : Nat := 96
def Tajik : Nat := 97
def Tamil : Nat := 98
def Telugu : Nat := 99
def Tongan : Nat := 100
def Tsonga : Nat := 101
def Tswana : Nat := 102
def Turkmen : Nat := 103
def Uigur : Nat := 104
def Urdu : Nat := 105
def Uzbek : Nat := 106
def Volapuk : Nat := 107
def Wolof : Nat := 108
def Xhosa : Nat := 109
def Yiddish : Nat := 110
def Zulu : Nat := 111
def Nahuatl : Nat := 112
def Armenian : Nat := 113
def Breton : Nat := 114
def French : Nat := 115
def Filipino : Nat := 116
def Tigrinya : Nat := 117
def Walloon : Nat := 118
def Latvian : Nat := 119
def Icelandic : Nat := 120
def Divehi : Nat := 121
def Inuktitut : Nat := 122
def Inupiak : Nat := 123
def Irish : Nat := 124
def Manx : Nat := 125
def Maori : Nat := 126
def NorthernSami : Nat := 127
def Samoan : Nat := 128
def Sanskrit : Nat := 129
def Gaelic : Nat := 130
def Slovak : Nat := 131
def Czech : Nat := 132
def Macedonian : Nat := 133
def Lithuanian : Nat := 134
def Bosnian : Nat := 135
def Belarusian : Nat := 136
def Croatian : Nat := 137
def Russian : Nat := 138
def Serbian : Nat := 139
def Ukrainian : Nat := 140
def Polish : Nat := 141
def Romanian : Nat := 142
def Slovenian : Nat := 143
def Maltese : Nat := 144
def Welsh : Nat := 145
def Arabic : Nat := 146

def AnyCountry : Nat := 0
def Brazil : Nat := 1
def Latvia : Nat := 2
def UnitedStates : Nat := 3

/-- Modelled from the spec: the locale-registry collaborator function
codeToLanguage (ISO code bytes to language identifier), kept to the handful of
codes this development exercises; every unknown code maps to AnyLanguage,
which is what QLocale.codeToLanguage returns for unrecognized input. -/
def codeToLanguage (code : List Nat) : Nat :=
  if code = [108, 118] then Latvian           -- "lv"
  else if code = [101, 110] then English      -- "en"
  else if code = [114, 117] then Russian      -- "ru"
  else if code = [112, 116] then Portuguese   -- "pt"
  else if code = [106, 97] then Japanese      -- "ja"
  else if code = [97, 114] then Arabic        -- "ar"
  else AnyLanguage

/-- Modelled from the spec: the locale-registry collaborator function
codeToCountry, restricted to the codes this development exercises. -/
def codeToCountry (code : List Nat) : Nat :=
  if code = [76, 86] then Latvia              -- "LV"
  else if code = [66, 82] then Brazil         -- "BR"
  else AnyCountry

/-- Modelled from the spec: defaultTerritoryFor(language), the territory that
QLocale(language).territory() resolves for a bare language code. -/
def localeTerritory (language : Nat) : Nat :=
  if language = Latvian then Latvia
  else if language = English then UnitedStates
  else if language = Portuguese then Brazil
  else AnyCountry

end QLocale

/-! ## numerus.py: the plural rule table and getNumerusInfo -/

def Q_EQ : Nat := 0x01
def Q_LT : Nat := 0x02
def Q_LEQ : Nat := 0x03
def Q_BETWEEN : Nat := 0x04
def Q_NOT : Nat := 0x08
def Q_MOD_10 : Nat := 0x10
def Q_MOD_100 : Nat := 0x20
def Q_LEAD_1000 : Nat := 0x40
def Q_AND : Nat := 0xFD
def Q_OR : Nat := 0xFE
def Q_NEWRULE : Nat := 0xFF
def Q_OP_MASK : Nat := 0x07
def Q_NEQ : Nat := Q_NOT ||| Q_EQ
def Q_GT : Nat := Q_NOT ||| Q_LEQ
def Q_GEQ : Nat := Q_NOT ||| Q_LT
def Q_NOT_BETWEEN : Nat := Q_NOT ||| Q_BETWEEN

def englishStyleRules : List Nat := [Q_EQ, 1]
def frenchStyleRules : List Nat := [Q_LEQ, 1]
def latvianRules : List Nat :=
  [Q_MOD_10 ||| Q_EQ, 1, Q_AND, Q_MOD_100 ||| Q_NEQ, 11, Q_NEWRULE,
   Q_NEQ, 0]
def icelandicRules : List Nat := [Q_MOD_10 ||| Q_EQ, 1, Q_AND, Q_MOD_100 ||| Q_NEQ, 11]
def irishStyleRules : List Nat := [Q_EQ, 1, Q_NEWRULE, Q_EQ, 2]
def gaelicStyleRules : List Nat :=
  [Q_EQ, 1, Q_OR, Q_EQ, 11, Q_NEWRULE,
   Q_EQ, 2, Q_OR, Q_EQ, 12, Q_NEWRULE,
   Q_BETWEEN, 3, 19]
def slovakStyleRules : List Nat := [Q_EQ, 1, Q_NEWRULE, Q_BETWEEN, 2, 4]
def macedonianRules : List Nat :=
  [Q_MOD_10 ||| Q_EQ, 1, Q_NEWRULE, Q_MOD_10 ||| Q_EQ, 2]
def lithuanianRules : List Nat :=
  [Q_MOD_10 ||| Q_EQ, 1, Q_AND, Q_MOD_100 ||| Q_NEQ, 11, Q_NEWRULE,
   Q_MOD_10 ||| Q_NEQ, 0, Q_AND, Q_MOD_100 ||| Q_NOT_BETWEEN, 10, 19]
def russianStyleRules : List Nat :=
  [Q_MOD_10 ||| Q_EQ, 1, Q_AND, Q_MOD_100 ||| Q_NEQ, 11, Q_NEWRULE,
   Q_MOD_10 ||| Q_BETWEEN, 2, 4, Q_AND, Q_MOD_100 ||| Q_NOT_BETWEEN, 10, 19]
def polishRules : List Nat :=
  [Q_EQ, 1, Q_NEWRULE,
   Q_MOD_10 ||| Q_BETWEEN, 2, 4, Q_AND, Q_MOD_100 ||| Q_NOT_BETWEEN, 10, 19]
def romanianRules : List Nat :=
  [Q_EQ, 1, Q_NEWRULE,
   Q_EQ, 0, Q_OR, Q_MOD_100 ||| Q_BETWEEN, 1, 19]
def slovenianRules : List Nat :=
  [Q_MOD_100 ||| Q_EQ, 1, Q_NEWRULE,
   Q_MOD_100 ||| Q_EQ, 2, Q_NEWRULE,
   Q_MOD_100 ||| Q_BETWEEN, 3, 4]
def malteseRules : List Nat :=
  [Q_EQ, 1, Q_NEWRULE,
   Q_EQ, 0, Q_OR, Q_MOD_100 ||| Q_BETWEEN, 1, 10, Q_NEWRULE,
   Q_MOD_100 ||| Q_BETWEEN, 11, 19]
def welshRules : List Nat :=
  [Q_EQ, 0, Q_NEWRULE,
   Q_EQ, 1, Q_NEWRULE,
   Q_BETWEEN, 2, 5, Q_NEWRULE,
   Q_EQ, 6]
def arabicRules : List Nat :=
  [Q_EQ, 0, Q_NEWRULE,
   Q_EQ, 1, Q_NEWRULE,
   Q_EQ, 2, Q_NEWRULE,
   Q_MOD_100 ||| Q_BETWEEN, 3, 10, Q_NEWRULE,
   Q_MOD_100 ||| Q_GEQ, 11]
def tagalogRules : List Nat :=
  [Q_LEQ, 1, Q_NEWRULE,
   Q_MOD_10 ||| Q_EQ, 4, Q_OR, Q_MOD_10 ||| Q_EQ, 6, Q_OR, Q_MOD_10 ||| Q_EQ, 9]

def japaneseStyleForms : List String := ["Universal Form"]
def englishStyleForms : List String := ["Singular", "Plural"]
def frenchStyleForms : List String := ["Singular", "Plural"]
def icelandicForms : List String := ["Singular", "Plural"]
def latvianForms : List String := ["Singular", "Plural", "Nullar"]
def irishStyleForms : List String := ["Singular", "Dual", "Plural"]
def gaelicStyleForms : List String := ["1/11", "2/12", "Few", "Many"]
def slovakStyleForms : List String := ["Singular", "Paucal", "Plural"]
def macedonianForms : List String := ["Singular", "Dual", "Plural"]
def lithuanianForms : List String := ["Singular", "Paucal", "Plural"]
def russianStyleForms : List String := ["Singular", "Dual", "Plural"]
def polishForms : List String := ["Singular", "Paucal", "Plural"]
def romanianForms : List String := ["Singular", "Paucal", "Plural"]
def slovenianForms : List String := ["Singular", "Dual", "Trial", "Plural"]
def malteseForms : List String := ["Singular", "Paucal", "Greater Paucal", "Plural"]
def welshForms : List String := ["Nullar", "Singular", "Dual", "Sexal", "Plural"]
def arabicForms : List String :=
  ["Nullar", "Singular", "Dual", "Minority Plural", "Plural", "Plural (100-102, ...)"]
def tagalogForms : List String :=
  ["Singular", "Plural (consonant-ended)", "Plural (vowel-ended)"]

def japaneseStyleLanguages : List Nat :=
  [QLocale.Bislama, QLocale.Burmese, QLocale.Chinese, QLocale.Dzongkha,
   QLocale.Fijian, QLocale.Guarani, QLocale.Hungarian, QLocale.Indonesian,
   QLocale.Japanese, QLocale.Javanese, QLocale.Korean, QLocale.Malay,
   QLocale.NauruLanguage, QLocale.Oromo, QLocale.Persian, QLocale.Sundanese,
   QLocale.Tatar, QLocale.Thai, QLocale.Tibetan, QLocale.Turkish,
   QLocale.Vietnamese, QLocale.Yoruba, QLocale.Zhuang]

/-- englishStyleLanguages; the trailing conditional
[Nahuatl] if hasattr(QLocale.Language, ...) is modelled as present, which is
the Qt 6 behaviour the repository targets. -/
def englishStyleLanguages : List Nat :=
  [QLocale.Abkhazian, QLocale.Afar, QLocale.Afrikaans, QLocale.Albanian,
   QLocale.Amharic, QLocale.Assamese, QLocale.Aymara, QLocale.Azerbaijani,
   QLocale.Bashkir, QLocale.Basque, QLocale.Bengali, QLocale.Bulgarian,
   QLocale.Catalan, QLocale.Cornish, QLocale.Corsican, QLocale.Danish,
   QLocale.Dutch, QLocale.English, QLocale.Esperanto, QLocale.Estonian,
   QLocale.Faroese, QLocale.Finnish, QLocale.Friulian, QLocale.WesternFrisian,
   QLocale.Galician, QLocale.Georgian, QLocale.German, QLocale.Greek,
   QLocale.Greenlandic, QLocale.Gujarati, QLocale.Hausa, QLocale.Hebrew,
   QLocale.Hindi, QLocale.Interlingua, QLocale.Interlingue, QLocale.Italian,
   QLocale.Kannada, QLocale.Kashmiri, QLocale.Kazakh, QLocale.Khmer,
   QLocale.Kinyarwanda, QLocale.Kirghiz, QLocale.Kurdish, QLocale.Lao,
   QLocale.Latin, QLocale.Lingala, QLocale.Luxembourgish, QLocale.Malagasy,
   QLocale.Malayalam, QLocale.Marathi, QLocale.Mongolian, QLocale.Nepali,
   QLocale.NorthernSotho, QLocale.NorwegianBokmal, QLocale.NorwegianNynorsk,
   QLocale.Occitan, QLocale.Oriya, QLocale.Pashto, QLocale.Portuguese,
   QLocale.Punjabi, QLocale.Quechua, QLocale.Romansh, QLocale.Rundi,
   QLocale.Shona, QLocale.Sindhi, QLocale.Sinhala, QLocale.Somali,
   QLocale.SouthernSotho, QLocale.Spanish, QLocale.Swahili, QLocale.Swati,
   QLocale.Swedish, QLocale.Tajik, QLocale.Tamil, QLocale.Telugu,
   QLocale.Tongan, QLocale.Tsonga, QLocale.Tswana, QLocale.Turkmen,
   QLocale.Uigur, QLocale.Urdu, QLocale.Uzbek, QLocale.Volapuk,
   QLocale.Wolof, QLocale.Xhosa, QLocale.Yiddish, QLocale.Zulu] ++
  [QLocale.Nahuatl]

def frenchStyleLanguages : List Nat :=
  [QLocale.Armenian, QLocale.Breton, QLocale.French, QLocale.Portuguese,
   QLocale.Filipino, QLocale.Tigrinya, QLocale.Walloon]

def latvianLanguage : List Nat := [QLocale.Latvian]
def icelandicLanguage : List Nat := [QLocale.Icelandic]
def irishStyleLanguages : List Nat :=
  [QLocale.Divehi, QLocale.Inuktitut, QLocale.Inupiak, QLocale.Irish,
   QLocale.Manx, QLocale.Maori, QLocale.NorthernSami, QLocale.Samoan,
   QLocale.Sanskrit]
def gaelicStyleLanguages : List Nat := [QLocale.Gaelic]
def slovakStyleLanguages : List Nat := [QLocale.Slovak, QLocale.Czech]
def macedonianLanguage : List Nat := [QLocale.Macedonian]
def lithuanianLanguage : List Nat := [QLocale.Lithuanian]
def russianStyleLanguages : List Nat :=
  [QLocale.Bosnian, QLocale.Belarusian, QLocale.Croatian, QLocale.Russian,
   QLocale.Serbian, QLocale.Ukrainian]
def polishLanguage : List Nat := [QLocale.Polish]
def romanianLanguages : List Nat := [QLocale.Romanian]
def slovenianLanguage : List Nat := [QLocale.Slovenian]
def malteseLanguage : List Nat := [QLocale.Maltese]
def welshLanguage : List Nat := [QLocale.Welsh]
def arabicLanguage : List Nat := [QLocale.Arabic]
def tagalogLanguage : List Nat := [QLocale.Filipino]

def frenchStyleCountries : List Nat :=
  [QLocale.AnyCountry, QLocale.AnyCountry, QLocale.AnyCountry, QLocale.Brazil,
   QLocale.AnyCountry, QLocale.AnyCountry, QLocale.AnyCountry]

structure NumerusTableEntry where
  rules : List Nat
  forms : List String
  languages : List Nat
  countries : List Nat
  gettextRules : String
deriving DecidableEq

def numerusTable : List NumerusTableEntry :=
  [⟨[], japaneseStyleForms, japaneseStyleLanguages, [], "nplurals=1; plural=0;"⟩,
   ⟨englishStyleRules, englishStyleForms, englishStyleLanguages, [],
    "nplurals=2; plural=(n != 1);"⟩,
   ⟨frenchStyleRules, frenchStyleForms, frenchStyleLanguages, frenchStyleCountries,
    "nplurals=2; plural=(n > 1);"⟩,
   ⟨latvianRules, latvianForms, latvianLanguage, [],
    "nplurals=3; plural=(n%10==1 && n%100!=11 ? 0 : n != 0 ? 1 : 2);"⟩,
   ⟨icelandicRules, icelandicForms, icelandicLanguage, [],
    "nplurals=2; plural=(n%10==1 && n%100!=11 ? 0 : 1);"⟩,
   ⟨irishStyleRules, irishStyleForms, irishStyleLanguages, [],
    "nplurals=3; plural=(n==1 ? 0 : n==2 ? 1 : 2);"⟩,
   ⟨gaelicStyleRules, gaelicStyleForms, gaelicStyleLanguages, [],
    "nplurals=4; plural=(n==1 || n==11) ? 0 : (n==2 || n==12) ? 1 : (n > 2 && n < 20) ? 2 : 3;"⟩,
   ⟨slovakStyleRules, slovakStyleForms, slovakStyleLanguages, [],
    "nplurals=3; plural=((n==1) ? 0 : (n>=2 && n<=4) ? 1 : 2);"⟩,
   ⟨macedonianRules, macedonianForms, macedonianLanguage, [],
    "nplurals=3; plural=(n%100==1 ? 0 : n%100==2 ? 1 : 2);"⟩,
   ⟨lithuanianRules, lithuanianForms, lithuanianLanguage, [],
    "nplurals=3; plural=(n%10==1 && n%100!=11 ? 0 : n%10>=2 && (n%100<10 || n%100>=20) ? 1 : 2);"⟩,
   ⟨russianStyleRules, russianStyleForms, russianStyleLanguages, [],
    "nplurals=3; plural=(n%10==1 && n%100!=11 ? 0 : n%10>=2 && n%10<=4 && (n%100<10 || n%100>=20) ? 1 : 2);"⟩,
   ⟨polishRules, polishForms, polishLanguage, [],
    "nplurals=3; plural=(n==1 ? 0 : n%10>=2 && n%10<=4 && (n%100<10 || n%100>=20) ? 1 : 2);"⟩,
   ⟨romanianRules, romanianForms, romanianLanguages, [],
    "nplurals=3; plural=(n==1 ? 0 : (n==0 || (n%100 > 0 && n%100 < 20)) ? 1 : 2);"⟩,
   ⟨slovenianRules, slovenianForms, slovenianLanguage, [],
    "nplurals=4; plural=(n%100==1 ? 0 : n%100==2 ? 1 : n%100==3 || n%100==4 ? 2 : 3);"⟩,
   ⟨malteseRules, malteseForms, malteseLanguage, [],
    "nplurals=4; plural=(n==1 ? 0 : (n==0 || (n%100>=1 && n%100<=10)) ? 1 : (n%100>=11 && n%100<=19) ? 2 : 3);"⟩,
   ⟨welshRules, welshForms, welshLanguage, [],
    "nplurals=5; plural=(n==0 ? 0 : n==1 ? 1 : (n>=2 && n<=5) ? 2 : n==6 ? 3 : 4);"⟩,
   ⟨arabicRules, arabicForms, arabicLanguage, [],
    "nplurals=6; plural=(n==0 ? 0 : n==1 ? 1 : n==2 ? 2 : (n%100>=3 && n%100<=10) ? 3 : n%100>=11 ? 4 : 5);"⟩,
   ⟨tagalogRules, tagalogForms, tagalogLanguage, [],
    "nplurals=3; plural=(n==1 ? 0 : (n%10==4 || n%10==6 || n%10== 9) ? 1 : 2);"⟩]

/-- The per-entry scan of getNumerusInfo: for j in range(len(entry.languages)),
entry.languages[j] == language and ((not entry.countries and country ==
AnyCountry) or (entry.countries and entry.countries[j] == country)).  When the
countries list is empty the j-condition no longer depends on j, and when it is
not empty the pair (languages[j], countries[j]) walks the zip of the two
equally long lists. -/
def entryMatches (e : NumerusTableEntry) (language country : Nat) : Bool :=
  if e.countries.isEmpty then
    country == QLocale.AnyCountry && e.languages.contains language
  else
    (e.languages.zip e.countries).any fun p => p.1 == language && p.2 == country

/-- One pass of the search loop in getNumerusInfo: the first table entry some
index of which matches (language, country). -/
def numerusPass (language country : Nat) : Option NumerusTableEntry :=
  numerusTable.find? (fun e => entryMatches e language country)

/-- numerus.py getNumerusInfo: one pass with the requested country; on a miss
with a specific country, a second pass with AnyCountry; the Bool is the found
flag. -/
def getNumerusInfo (language country : Nat) :
    List Nat × List String × String × Bool :=
  match numerusPass language country with
  | some e => (e.rules, e.forms, e.gettextRules, true)
  | none =>
    if country = QLocale.AnyCountry then ([], [], "", false)
    else
      match numerusPass language QLocale.AnyCountry with
      | some e => (e.rules, e.forms, e.gettextRules, true)
      | none => ([], [], "", false)

/-! ## translator.py Translator.languageAndTerritory -/

/-- translator.py Translator.languageAndTerritory: split a "lang_TERR" code at
the first underscore (byte 95), otherwise resolve the bare language code and
take the default territory of the locale. -/
def Translator.languageAndTerritory (languageCode : List Nat) : Nat × Nat :=
  if languageCode.contains 95 then
    let l := languageCode.takeWhile (fun b => b ≠ 95)
    let t := (languageCode.dropWhile (fun b => b ≠ 95)).drop 1
    (QLocale.codeToLanguage l, QLocale.codeToCountry t)
  else
    let language := QLocale.codeToLanguage languageCode
    (language, QLocale.localeTerritory language)

/-! ## translatormessage.py: TranslatorSaveMode, TranslatorMessage -/

inductive TranslatorSaveMode where
  | SaveEverything
  | SaveStripped
deriving DecidableEq

inductive MsgType where
  | Unfinished
  | Finished
  | Vanished
  | Obsolete
deriving DecidableEq

/-- translatormessage.py TranslatorMessage, restricted to the fields the
QM codec, the store index and normalization read or write.  Text fields hold
UTF-8 bytes; each translation holds UTF-16 code units.  The defaults are the
constructor defaults of the Python class. -/
structure TranslatorMessage where
  m_id : List Nat := []
  m_context : List Nat := []
  m_sourcetext : List Nat := []
  m_comment : List Nat := []
  m_translations : List (List Nat) := []
  m_type : MsgType := .Unfinished
  m_plural : Bool := false
deriving DecidableEq

/-- TranslatorMessage.translation(): the first slot, or the empty string. -/
def TranslatorMessage.translation (m : TranslatorMessage) : List Nat :=
  m.m_translations.headD []

/-! ## translator.py: ConversionData, the index maps and Translator -/

/-- The diagnostic strings the embedded code paths append via
cd.appendError, one constructor per distinct message. -/
inductive QmError where
  | magicMissing            -- "QM-Format error: magic marker missing"
  | formatError             -- "QM-Format error"
  | invalidUtf8             -- "Error: File contains invalid UTF-8 sequences."
  | droppedNoId (n : Nat)   -- "Dropped %n message(s) which had no ID."
  | excessContextDropped (n : Nat)
  | generatedTranslations (total finished unfinished : Nat)
  | ignoredUntranslated (n : Nat)
  | truncatedPluralForms    -- the normalizeTranslations truncation diagnostic
deriving DecidableEq

/-- translator.py ConversionData, restricted to the fields the QM codec and
normalization read; defaults are the constructor defaults. -/
structure ConversionData where
  m_unTrPrefix : List Nat := []
  m_errors : List QmError := []
  m_verbose : Bool := false
  m_ignoreUnfinished : Bool := false
  m_idBased : Bool := false
  m_saveMode : TranslatorSaveMode := .SaveEverything
deriving DecidableEq

def ConversionData.appendError (cd : ConversionData) (e : QmError) : ConversionData :=
  { cd with m_errors := cd.m_errors ++ [e] }

/-- translator.py Translator, restricted to the fields the QM codec reads. -/
structure Translator where
  m_messages : List TranslatorMessage := []
  m_language : List Nat := []
  m_dependencies : List (List Nat) := []
deriving DecidableEq

/-- The TMMKey of a message: the (context, sourceText, comment) triple. -/
def TMMKeyOf (m : TranslatorMessage) : List Nat × List Nat × List Nat :=
  (m.m_context, m.m_sourcetext, m.m_comment)

/-- Python dict assignment d[k] = v: overwrite in place, else append. -/
def assocUpd [DecidableEq κ] (k : κ) (v : Nat) : List (κ × Nat) → List (κ × Nat)
  | [] => [(k, v)]
  | (k', v') :: t => if k = k' then (k, v) :: t else (k', v') :: assocUpd k v t

/-- Python dict lookup d.get(k): the stored value, if any. -/
def assocGet [DecidableEq κ] (k : κ) : List (κ × Nat) → Option Nat
  | [] => none
  | (k', v) :: t => if k = k' then some v else assocGet k t

/-- The three derived indices of a Translator. -/
structure TorIndices where
  ctxCmtIdx : List (List Nat × Nat) := []
  idMsgIdx : List (List Nat × Nat) := []
  msgIdx : List ((List Nat × List Nat × List Nat) × Nat) := []

/-- translator.py Translator.addIndex. -/
def addIndex (st : TorIndices) (idx : Nat) (msg : TranslatorMessage) : TorIndices :=
  if msg.m_sourcetext = [] ∧ msg.m_id = [] then
    { st with ctxCmtIdx := assocUpd msg.m_context idx st.ctxCmtIdx }
  else
    let st := { st with msgIdx := assocUpd (TMMKeyOf msg) idx st.msgIdx }
    if msg.m_id ≠ [] then { st with idMsgIdx := assocUpd msg.m_id idx st.idMsgIdx }
    else st

/-- translator.py Translator.ensureIndexed on a store whose index is stale:
addIndex over the enumerated message list. -/
def ensureIndexed (msgs : List TranslatorMessage) : TorIndices :=
  msgs.enum.foldl (fun st p => addIndex st p.1 p.2) {}

/-- translator.py Translator.find for a TranslatorMessage argument, after
ensureIndexed.  The source returns the content-index lookup whenever the
queried message carries an id; in the empty-id branch both the final
conditional return and the fall-through return the same i, which the
embedding keeps. -/
def Translator.find (tor : Translator) (msg : TranslatorMessage) : Int :=
  let idx := ensureIndexed tor.m_messages
  if msg.m_id ≠ [] then
    match assocGet (TMMKeyOf msg) idx.msgIdx with
    | some i => (i : Int)
    | none => -1
  else
    let i : Int := match assocGet msg.m_id idx.idMsgIdx with
      | some i => (i : Int)
      | none => -1
    if i ≥ 0 then i
    else
      let i : Int := match assocGet (TMMKeyOf msg) idx.msgIdx with
        | some i => (i : Int)
        | none => -1
      if i ≥ 0 ∧ (tor.m_messages.getD i.toNat {}).m_id = [] then i
      else i

/-! ## translator.py Translator.normalizeTranslations -/

/-- One entry of the message loop of normalizeTranslations: pad with empty
strings below the required count, truncate above it, leave an exact count
alone. -/
def normalizeMsg (ccnt : Nat) (msg : TranslatorMessage) : TranslatorMessage :=
  if msg.m_translations.length ≠ ccnt then
    if msg.m_translations.length < ccnt then
      { msg with m_translations :=
          msg.m_translations ++ List.replicate (ccnt - msg.m_translations.length) [] }
    else { msg with m_translations := msg.m_translations.take ccnt }
  else msg

/-- The body of the message loop of normalizeTranslations, threading the
truncated flag in order; the flag is set exactly in the truncation branch,
that is when the entry holds more slots than required. -/
def normalizeLoop (num_plurals : Nat) :
    List TranslatorMessage → Bool → List TranslatorMessage × Bool
  | [], truncated => ([], truncated)
  | msg :: rest, truncated =>
    let ccnt := if msg.m_plural then num_plurals else 1
    let truncated' := if ccnt < msg.m_translations.length then true else truncated
    let r := normalizeLoop num_plurals rest truncated'
    (normalizeMsg ccnt msg :: r.1, r.2)

/-- translator.py Translator.normalizeTranslations: resolve the plural form
count of the target language (1 when the language is C or unknown), then pad
or truncate every entry, appending the truncation diagnostic when any entry
lost slots. -/
def Translator.normalizeTranslations (tor : Translator) (cd : ConversionData) :
    Translator × ConversionData :=
  let lc := Translator.languageAndTerritory tor.m_language
  let num_plurals :=
    if lc.1 ≠ QLocale.C then
      let r := getNumerusInfo lc.1 lc.2
      if r.2.2.2 then r.2.1.length else 1
    else 1
  let r := normalizeLoop num_plurals tor.m_messages false
  ({ tor with m_messages := r.1 },
   if r.2 then cd.appendError .truncatedPluralForms else cd)

/-! ## UTF-8 and UTF-16 helpers

validUtf8 is the acceptance condition of a strict Python utf-8 decode
(RFC 3629: no overlong forms, no surrogates, at most U+10FFFF).  In the byte
embedding of strings, a strict decode of valid bytes returns the bytes
themselves; fromBytes below uses exactly this. -/

def utf8Cont (b : Nat) : Bool := decide (0x80 ≤ b ∧ b ≤ 0xBF)

def validUtf8 : List Nat → Bool
  | [] => true
  | b :: rest =>
    if b ≤ 0x7F then validUtf8 rest
    else if 0xC2 ≤ b ∧ b ≤ 0xDF then
      match rest with
      | c1 :: r => utf8Cont c1 && validUtf8 r
      | [] => false
    else if b = 0xE0 then
      match rest with
      | c1 :: c2 :: r => decide (0xA0 ≤ c1 ∧ c1 ≤ 0xBF) && utf8Cont c2 && validUtf8 r
      | _ => false
    else if (0xE1 ≤ b ∧ b ≤ 0xEC) ∨ b = 0xEE ∨ b = 0xEF then
      match rest with
      | c1 :: c2 :: r => utf8Cont c1 && utf8Cont c2 && validUtf8 r
      | _ => false
    else if b = 0xED then
      match rest with
      | c1 :: c2 :: r => decide (0x80 ≤ c1 ∧ c1 ≤ 0x9F) && utf8Cont c2 && validUtf8 r
      | _ => false
    else if b = 0xF0 then
      match rest with
      | c1 :: c2 :: c3 :: r =>
        decide (0x90 ≤ c1 ∧ c1 ≤ 0xBF) && utf8Cont c2 && utf8Cont c3 && validUtf8 r
      | _ => false
    else if 0xF1 ≤ b ∧ b ≤ 0xF3 then
      match rest with
      | c1 :: c2 :: c3 :: r => utf8Cont c1 && utf8Cont c2 && utf8Cont c3 && validUtf8 r
      | _ => false
    else if b = 0xF4 then
      match rest with
      | c1 :: c2 :: c3 :: r =>
        decide (0x80 ≤ c1 ∧ c1 ≤ 0x8F) && utf8Cont c2 && utf8Cont c3 && validUtf8 r
      | _ => false
    else false

/-- The UTF-16 unit sequence of a code point (surrogate pair above U+FFFF). -/
def cpUnits (cp : Nat) : List Nat :=
  if cp < 0x10000 then [cp]
  else
    let v := cp - 0x10000
    [0xD800 + v / 0x400, 0xDC00 + v % 0x400]

/-- Lenient UTF-8 decode to code points (skipping ill-formed bytes); used only
to re-express a UTF-8 embedded string in the UTF-16 unit embedding, on the
fallback-translation path where a str built from prefix + sourceText is stored
into a translation slot. -/
def utf8Cps : List Nat → List Nat
  | [] => []
  | b :: rest =>
    if b ≤ 0x7F then b :: utf8Cps rest
    else if 0xC2 ≤ b ∧ b ≤ 0xDF then
      match rest with
      | c1 :: r =>
        if utf8Cont c1 then ((b - 0xC0) * 64 + (c1 - 0x80)) :: utf8Cps r
        else utf8Cps (c1 :: r)
      | [] => []
    else if 0xE0 ≤ b ∧ b ≤ 0xEF then
      match rest with
      | c1 :: c2 :: r =>
        if utf8Cont c1 && utf8Cont c2 then
          ((b - 0xE0) * 4096 + (c1 - 0x80) * 64 + (c2 - 0x80)) :: utf8Cps r
        else utf8Cps (c1 :: c2 :: r)
      | _ => []
    else if 0xF0 ≤ b ∧ b ≤ 0xF4 then
      match rest with
      | c1 :: c2 :: c3 :: r =>
        if utf8Cont c1 && utf8Cont c2 && utf8Cont c3 then
          ((b - 0xF0) * 262144 + (c1 - 0x80) * 4096 + (c2 - 0x80) * 64 + (c3 - 0x80)) ::
            utf8Cps r
        else utf8Cps (c1 :: c2 :: c3 :: r)
      | _ => []
    else utf8Cps rest
termination_by l => l.length
decreasing_by all_goals simp [List.length_cons] <;> omega

/-- A str in its UTF-8 byte embedding, re-expressed in its UTF-16 unit
embedding. -/
def utf8ToUnits (bytes : List Nat) : List Nat :=
  ((utf8Cps bytes).map cpUnits).join

/-- str.encode("utf_16_be") on the UTF-16 unit embedding of a well-formed
string: two big-endian bytes per unit. -/
def toUtf16be (units : List Nat) : List Nat :=
  (units.map (fun u => [u / 256 % 256, u % 256])).join

/-- Group little-endian byte pairs into units; an odd trailing byte is the
truncated-data decode error. -/
def utf16leUnits : List Nat → Option (List Nat)
  | [] => some []
  | [_] => none
  | b0 :: b1 :: rest =>
    match utf16leUnits rest with
    | none => none
    | some us => some ((b0 + 256 * b1) :: us)

/-- Well-formed UTF-16: every high surrogate is followed by a low surrogate
and no low surrogate stands alone.  bytes.decode("utf-16le") accepts exactly
these sequences, and the units of the decoded str are the input units. -/
def validUtf16 : List Nat → Bool
  | [] => true
  | u :: rest =>
    if 0xD800 ≤ u ∧ u ≤ 0xDBFF then
      match rest with
      | v :: r => decide (0xDC00 ≤ v ∧ v ≤ 0xDFFF) && validUtf16 r
      | [] => false
    else if 0xDC00 ≤ u ∧ u ≤ 0xDFFF then false
    else validUtf16 rest

/-- bytes.decode("utf-16le") in the unit embedding: the unit sequence when the
bytes are well formed, the decode exception otherwise. -/
def decodeUtf16le (bytes : List Nat) : Option (List Nat) :=
  match utf16leUnits bytes with
  | none => none
  | some us => if validUtf16 us then some us else none

/-- The byte swap loadQM performs on little-endian hosts before decoding a
translation as utf-16le; a trailing odd byte (IndexError in Python) is left to
the following decode, which also fails on it. -/
def swapPairs : List Nat → List Nat
  | b0 :: b1 :: rest => b1 :: b0 :: swapPairs rest
  | l => l

/-- QSysInfo.Endian.ByteOrder == QSysInfo.Endian.LittleEndian on the hosts the
repository targets. -/
def hostLittleEndian : Bool := true

/-! ## qm.py: constants and ByteTranslatorMessage -/

def magic : List Nat :=
  [0x3c, 0xb8, 0x64, 0x18, 0xca, 0xef, 0x9c, 0x95,
   0xcd, 0x21, 0x1c, 0xbf, 0x60, 0xa1, 0xbd, 0xdd]

def Tag_End : Nat := 1
def Tag_SourceText16 : Nat := 2
def Tag_Translation : Nat := 3
def Tag_Context16 : Nat := 4
def Tag_Obsolete1 : Nat := 5
def Tag_SourceText : Nat := 6
def Tag_Context : Nat := 7
def Tag_Comment : Nat := 8
def Tag_Obsolete2 : Nat := 9

def QMTag_Contexts : Nat := 0x2F
def QMTag_Hashes : Nat := 0x42
def QMTag_Messages : Nat := 0x69
def QMTag_NumerusRules : Nat := 0x88
def QMTag_Dependencies : Nat := 0x96
def QMTag_Language : Nat := 0xA7

/-- The Prefix IntEnum values (source names NoPrefix, Hash, HashContext,
HashContextSourceText, HashContextSourceTextComment). -/
def pfxNone : Nat := 0
def pfxHash : Nat := 1
def pfxHashContext : Nat := 2
def pfxHashContextSourceText : Nat := 3
def pfxHashContextSourceTextComment : Nat := 4

/-- qm.py ByteTranslatorMessage; text fields are UTF-8 bytes and each
translation a UTF-16 unit sequence. -/
structure ByteTranslatorMessage where
  m_context : List Nat
  m_sourceText : List Nat
  m_comment : List Nat
  m_translations : List (List Nat)
deriving DecidableEq

/-- ByteTranslatorMessage.__lt__: lexicographic on (context, sourceText,
comment) under Python bytes comparison; translations are not compared. -/
def btmLt (m1 m2 : ByteTranslatorMessage) : Bool :=
  if m1.m_context ≠ m2.m_context then bytesLt m1.m_context m2.m_context
  else if m1.m_sourceText ≠ m2.m_sourceText then bytesLt m1.m_sourceText m2.m_sourceText
  else bytesLt m1.m_comment m2.m_comment

/-! ## qm.py Releaser: state, hashing and record serialization -/

structure Releaser where
  m_language : List Nat := []
  m_messageArray : List Nat := []
  m_offsetArray : List Nat := []
  m_contextArray : List Nat := []
  m_messages : List ByteTranslatorMessage := []
  m_numerusRules : List Nat := []
  m_dependencies : List (List Nat) := []
  m_dependencyArray : List Nat := []
deriving DecidableEq

/-- Releaser.originalBytes: string.encode("utf-8"), the identity on the UTF-8
byte embedding of a string. -/
def Releaser.originalBytes (s : List Nat) : List Nat := s

/-- Releaser.msgHash. -/
def Releaser.msgHash (msg : ByteTranslatorMessage) : Nat :=
  elfHash (msg.m_sourceText ++ msg.m_comment)

/-- Releaser.commonPrefix (named commonPfx here; the source name ends in a
reserved word). -/
def Releaser.commonPfx (m1 m2 : ByteTranslatorMessage) : Nat :=
  if Releaser.msgHash m1 ≠ Releaser.msgHash m2 then pfxNone
  else if m1.m_context ≠ m2.m_context then pfxHash
  else if m1.m_sourceText ≠ m2.m_sourceText then pfxHashContext
  else if m1.m_comment ≠ m2.m_comment then pfxHashContextSourceText
  else pfxHashContextSourceTextComment

/-- Releaser.writeMessage; pfx is the Prefix argument, which SaveEverything
mode overrides with the full one. -/
def Releaser.writeMessage (msg : ByteTranslatorMessage) (mode : TranslatorSaveMode)
    (pfx : Nat) : List Nat :=
  let stream := (msg.m_translations.map (fun t =>
    uint8 Tag_Translation ++ uint32 (toUtf16be t).length ++ toUtf16be t)).join
  let pfx := if mode = .SaveEverything then pfxHashContextSourceTextComment else pfx
  let stream := stream ++
    (if pfx = pfxHashContextSourceTextComment then
      uint8 Tag_Comment ++ uint32 msg.m_comment.length ++ msg.m_comment ++
      (uint8 Tag_SourceText ++ uint32 msg.m_sourceText.length ++ msg.m_sourceText) ++
      (uint8 Tag_Context ++ uint32 msg.m_context.length ++ msg.m_context)
    else [])
  let stream := stream ++
    (if pfx = pfxHashContextSourceText then
      uint8 Tag_SourceText ++ uint32 msg.m_sourceText.length ++ msg.m_sourceText ++
      (uint8 Tag_Context ++ uint32 msg.m_context.length ++ msg.m_context)
    else [])
  let stream := stream ++
    (if pfx = pfxHashContext then
      uint8 Tag_Context ++ uint32 msg.m_context.length ++ msg.m_context
    else [])
  stream ++ uint8 Tag_End

/-- Releaser.Offset. -/
structure ROffset where
  h : Nat
  o : Nat
deriving DecidableEq

/-- The exception classes the QM encoder can let escape. -/
inductive PyExc where
  | keyError      -- context_set[key] += 1 with key absent
  | valueError    -- Prefix(5): max(prev_prefix, next_prefix + 1) above 4
  | overflowError -- n.to_bytes(4, "big") with n outside 32 bits
deriving DecidableEq

/-- A Python call that either returns or lets an exception escape. -/
inductive PyResult (α : Type) where
  | ok (val : α)
  | exc (e : PyExc)
deriving DecidableEq

/-- The message loop of Releaser.squeeze: prev_prefix is the next_prefix of
the previous iteration (NoPrefix initially), next_prefix compares the current
against the following message, and Prefix(max(prev_prefix, next_prefix + 1))
raises ValueError when the argument exceeds 4, which happens exactly when two
adjacent sorted messages agree on hash, context, sourceText and comment. -/
def buildMessageArrayGo (mode : TranslatorSaveMode) (prevPfx : Nat)
    (arr : List Nat) (offs : List ROffset) :
    List ByteTranslatorMessage → Option (List Nat × List ROffset)
  | [] => some (arr, offs)
  | it :: rest =>
    let nextPfx := match rest with
      | [] => pfxNone
      | next_it :: _ => Releaser.commonPfx it next_it
    let p := max prevPfx (nextPfx + 1)
    if 4 < p then none
    else
      let offs := offs ++ [⟨Releaser.msgHash it, arr.length⟩]
      let arr := arr ++ Releaser.writeMessage it mode p
      buildMessageArrayGo mode nextPfx arr offs rest

def buildMessageArray (messages : List ByteTranslatorMessage)
    (mode : TranslatorSaveMode) : Option (List Nat × List ROffset) :=
  buildMessageArrayGo mode pfxNone [] [] messages

/-- The sorted message order Releaser.squeeze serializes:
sorted(self.m_messages) under ByteTranslatorMessage.__lt__. -/
def squeezeSortedMessages (msgs : List ByteTranslatorMessage) :
    List ByteTranslatorMessage :=
  pySort btmLt msgs

/-- context_set[it.context()] += 1 over the sorted messages: the lookup of a
key that was never initialized raises KeyError. -/
def buildContextSet : List ByteTranslatorMessage → List (List Nat × Nat) →
    Option (List (List Nat × Nat))
  | [], d => some d
  | it :: rest, d =>
    match assocGet it.m_context d with
    | none => none
    | some v => buildContextSet rest (assocUpd it.m_context (v + 1) d)

/-- qm.py _set_bytes: container[pos:pos+len(data)] = data on a bytearray,
returning the container and the end position. -/
def contextArraySetBytes (container : List Nat) (data : List Nat) (pos : Nat) :
    List Nat × Nat :=
  (container.take pos ++ data ++ container.drop (pos + data.length),
   pos + data.length)

/-- The contiguous run of hash_map entries sharing the leading bucket i. -/
def ctxSpan (i : Nat) : List (Nat × List Nat) →
    List (List Nat) × List (Nat × List Nat)
  | [] => ([], [])
  | (h, c) :: rest =>
    if h = i then
      let r := ctxSpan i rest
      (c :: r.1, r.2)
    else ([], (h, c) :: rest)

/-- The inner while of the context-pool loop: write each entry of the run as
a Pascal string (length byte capped at 255, then the bytes). -/
def ctxWriteSpan : List (List Nat) → List Nat → Nat → Nat → List Nat × Nat × Nat
  | [], ca, pos, up_to => (ca, pos, up_to)
  | entry :: rest, ca, pos, up_to =>
    let r1 := contextArraySetBytes ca (uint8 (min entry.length 255)) pos
    let r2 := contextArraySetBytes r1.1 entry r1.2
    ctxWriteSpan rest r2.1 r2.2 (up_to + 1 + entry.length)

/-- The outer while of the context-pool loop (fuelled; every step consumes at
least the head of hash_map, so length + 1 fuel always suffices). -/
def ctxTableGo (fuel : Nat) (hm : List (Nat × List Nat)) (ca : List Nat)
    (h_table : List Nat) (pos up_to : Nat) : List Nat × List Nat × Nat :=
  match fuel with
  | 0 => (ca, h_table, up_to)
  | fuel + 1 =>
    match hm with
    | [] => (ca, h_table, up_to)
    | (i, _) :: _ =>
      let h_table := h_table.set i (up_to >>> 1)
      let sp := ctxSpan i hm
      let r := ctxWriteSpan sp.1 ca pos up_to
      let r2 :=
        if r.2.2 % 2 = 1 then
          let w := contextArraySetBytes r.1 [0] r.2.1
          (w.1, w.2, r.2.2 + 1)
        else r
      ctxTableGo fuel sp.2 r2.1 h_table r2.2.1 r2.2.2

/-- Write the filled h_table back at offset 2, one uint16 per bucket. -/
def ctxWriteHTable : List Nat → List Nat → Nat → List Nat
  | [], ca, _ => ca
  | i :: rest, ca, pos =>
    let r := contextArraySetBytes ca (uint16 i) pos
    ctxWriteHTable rest r.1 r.2

/-- The context-table construction of Releaser.squeeze in SaveStripped mode
(reached only when context_set was built without raising). -/
def buildContextArray (context_set : List (List Nat × Nat)) : List Nat :=
  let h_table_size := hTableSize context_set.length
  let hash_map := context_set.map (fun p => (elfHash p.1 % h_table_size, p.1))
  let ca0 : List Nat := List.replicate (2 + h_table_size * 2) 0
  let w1 := contextArraySetBytes ca0 (uint16 h_table_size) 0
  let pos := 2 + h_table_size * 2
  let w2 := contextArraySetBytes w1.1 (uint16 0) pos
  let h_table : List Nat := List.replicate h_table_size 0
  let r := ctxTableGo (hash_map.length + 1) hash_map w2.1 h_table w2.2 2
  let ca := ctxWriteHTable r.2.1 r.1 2
  if r.2.2 > 131072 then [] else ca

/-- The offset array of Releaser.squeeze: the 8-byte hash-offset entries,
sorted as Python byte strings (equivalently by (h, o), the entries being
fixed-width big-endian), concatenated.  Reached only after squeezeGo checked
every entry against 32 bits: sorted() consumes the uint32 generator first and
to_bytes raises OverflowError on any out-of-range hash or offset. -/
def squeezeOffsetArray (offsets : List ROffset) : List Nat :=
  (pySort bytesLt (offsets.map fun k => uint32 k.h ++ uint32 k.o)).join

/-- The tail of Releaser.squeeze once the message loop succeeded: install the
rebuilt arrays, then in SaveStripped mode count the contexts (which raises
KeyError on the first message, see buildContextSet) and build the context
table. -/
def squeezeFinish (rel : Releaser) (mode : TranslatorSaveMode)
    (messages : List ByteTranslatorMessage) (msgArr : List Nat)
    (offsets : List ROffset) : PyResult Releaser :=
  let rel := { rel with
    m_messageArray := msgArr, m_offsetArray := squeezeOffsetArray offsets,
    m_contextArray := [], m_messages := [] }
  if mode = .SaveStripped then
    match buildContextSet messages [] with
    | none => .exc .keyError
    | some cs => .ok { rel with m_contextArray := buildContextArray cs }
  else .ok rel

/-- Releaser.squeeze after the dependency-array rebuild.  Building the offset
array (qm.py line 285-286) applies uint32 to every entry while sorted()
consumes the generator; to_bytes raises OverflowError when a hash or offset
does not fit 32 bits, after the message loop and before the stripped-mode
context loop. -/
def squeezeGo (rel : Releaser) (mode : TranslatorSaveMode) : PyResult Releaser :=
  if rel.m_messages = [] ∧ mode = .SaveEverything then .ok rel
  else
    match buildMessageArray (squeezeSortedMessages rel.m_messages) mode with
    | none => .exc .valueError
    | some (msgArr, offsets) =>
      if ∀ k ∈ offsets, k.h < 4294967296 ∧ k.o < 4294967296 then
        squeezeFinish rel mode (squeezeSortedMessages rel.m_messages) msgArr offsets
      else .exc .overflowError

/-- Releaser.squeeze. -/
def Releaser.squeeze (rel : Releaser) (mode : TranslatorSaveMode) :
    PyResult Releaser :=
  squeezeGo { rel with m_dependencyArray := rel.m_dependencies.join } mode

/-- Releaser.insert. -/
def Releaser.insert (rel : Releaser) (message : TranslatorMessage)
    (translations : List (List Nat)) (forceComment : Bool) : Releaser :=
  let b_msg : ByteTranslatorMessage :=
    ⟨Releaser.originalBytes message.m_context,
     Releaser.originalBytes message.m_sourcetext,
     Releaser.originalBytes message.m_comment, translations⟩
  if ¬ forceComment then
    let b_msg2 : ByteTranslatorMessage :=
      ⟨b_msg.m_context, b_msg.m_sourceText, [], b_msg.m_translations⟩
    if b_msg2 ∉ rel.m_messages then
      { rel with m_messages := rel.m_messages ++ [b_msg2] }
    else { rel with m_messages := rel.m_messages ++ [b_msg] }
  else { rel with m_messages := rel.m_messages ++ [b_msg] }

/-- Releaser.insertIdBased. -/
def Releaser.insertIdBased (rel : Releaser) (message : TranslatorMessage)
    (translations : List (List Nat)) : Releaser :=
  { rel with m_messages := rel.m_messages ++
      [⟨[], Releaser.originalBytes message.m_id, [], translations⟩] }

/-- Releaser.save: magic, then each non-empty block with tag byte and uint32
length. -/
def Releaser.save (rel : Releaser) : List Nat :=
  magic ++
  (if rel.m_language ≠ [] then
    uint8 QMTag_Language ++ uint32 rel.m_language.length ++ rel.m_language
  else []) ++
  (if rel.m_dependencyArray ≠ [] then
    uint8 QMTag_Dependencies ++ uint32 rel.m_dependencyArray.length ++
      rel.m_dependencyArray
  else []) ++
  (if rel.m_offsetArray ≠ [] then
    uint8 QMTag_Hashes ++ uint32 rel.m_offsetArray.length ++ rel.m_offsetArray
  else []) ++
  (if rel.m_messageArray ≠ [] then
    uint8 QMTag_Messages ++ uint32 rel.m_messageArray.length ++ rel.m_messageArray
  else []) ++
  (if rel.m_contextArray ≠ [] then
    uint8 QMTag_Contexts ++ uint32 rel.m_contextArray.length ++ rel.m_contextArray
  else []) ++
  (if rel.m_numerusRules ≠ [] then
    uint8 QMTag_NumerusRules ++ uint32 rel.m_numerusRules.length ++
      rel.m_numerusRules
  else [])

/-! ## qm.py saveQM -/

/-- qm.py containsStripped. -/
def containsStripped (tor : Translator) (msg : TranslatorMessage) : Bool :=
  tor.m_messages.any fun t_msg =>
    t_msg.m_sourcetext == msg.m_sourcetext &&
    t_msg.m_context == msg.m_context &&
    t_msg.m_comment == []

/-- The counters the saveQM message loop accumulates. -/
structure SaveStats where
  finished : Nat := 0
  unfinished : Nat := 0
  untranslated : Nat := 0
  missing_ids : Nat := 0
  dropped_data : Nat := 0
deriving DecidableEq

/-- The message loop of saveQM: filtering, counter bookkeeping, the
untranslated-slot substitution of id-based or prefixed runs, and the insert
into the releaser. -/
def saveQMLoop (tor : Translator) (cd : ConversionData) :
    List TranslatorMessage → Releaser → SaveStats → Releaser × SaveStats
  | [], rel, stats => (rel, stats)
  | msg :: rest, rel, stats =>
    let typ := msg.m_type
    if typ = .Obsolete ∨ typ = .Vanished then
      saveQMLoop tor cd rest rel stats
    else if cd.m_idBased ∧ msg.m_id = [] then
      saveQMLoop tor cd rest rel { stats with missing_ids := stats.missing_ids + 1 }
    else if typ = .Unfinished ∧ msg.translation = [] ∧ ¬ cd.m_idBased ∧
        cd.m_unTrPrefix = [] then
      saveQMLoop tor cd rest rel { stats with untranslated := stats.untranslated + 1 }
    else if typ = .Unfinished ∧ cd.m_ignoreUnfinished then
      saveQMLoop tor cd rest rel stats
    else
      let stats :=
        if typ = .Unfinished then { stats with unfinished := stats.unfinished + 1 }
        else { stats with finished := stats.finished + 1 }
      let translations := msg.m_translations
      let translations :=
        if typ = .Unfinished ∧ (cd.m_idBased ∨ cd.m_unTrPrefix ≠ []) then
          translations.map fun t =>
            if t = [] then utf8ToUnits (cd.m_unTrPrefix ++ msg.m_sourcetext) else t
        else translations
      if cd.m_idBased then
        let stats :=
          if msg.m_context ≠ [] ∨ msg.m_comment ≠ [] then
            { stats with dropped_data := stats.dropped_data + 1 }
          else stats
        saveQMLoop tor cd rest (rel.insertIdBased msg translations) stats
      else
        let force_comment :=
          msg.m_comment = [] ∨ msg.m_context = [] ∨ containsStripped tor msg
        saveQMLoop tor cd rest (rel.insert msg translations force_comment) stats

/-- qm.py saveQM: numerus rules from the target locale, the message loop, the
dropped-data diagnostics, squeeze (which can raise, see PyExc) and save.  The
returned Bool is the saved flag. -/
def saveQM (tor : Translator) (cd : ConversionData) :
    PyResult (Bool × List Nat × ConversionData) :=
  let rel : Releaser := { m_language := tor.m_language }
  let lc := Translator.languageAndTerritory tor.m_language
  let nr := getNumerusInfo lc.1 lc.2
  let rel := if nr.2.2.2 then { rel with m_numerusRules := nr.1 } else rel
  let r := saveQMLoop tor cd tor.m_messages rel {}
  let rel := r.1
  let stats := r.2
  let cd :=
    if stats.missing_ids ≠ 0 then cd.appendError (.droppedNoId stats.missing_ids)
    else cd
  let cd :=
    if stats.dropped_data ≠ 0 then
      cd.appendError (.excessContextDropped stats.dropped_data)
    else cd
  let rel := { rel with m_dependencies := tor.m_dependencies }
  match rel.squeeze cd.m_saveMode with
  | .exc e => .exc e
  | .ok rel =>
    let out := rel.save
    let saved := true
    let cd :=
      if saved ∧ cd.m_verbose then
        let cd := cd.appendError
          (.generatedTranslations (stats.finished + stats.unfinished)
            stats.finished stats.unfinished)
        if stats.untranslated ≠ 0 then
          cd.appendError (.ignoredUntranslated stats.untranslated)
        else cd
      else cd
    .ok (saved, out, cd)

/-! ## qm.py loadQM -/

/-- qm.py fromBytes: a strict utf-8 decode of data[:length]; on failure the
output string stays empty and the failure flag is set. -/
def fromBytes (data : List Nat) (length : Nat) : List Nat × Bool :=
  if validUtf8 (data.take length) then (data.take length, false) else ([], true)

/-- Python needle in haystack for bytes in the UTF-8 embedding; ASCII needles
occur in the str exactly when their bytes occur in the encoding. -/
def listInfix (pat : List Nat) (l : List Nat) : Bool :=
  match l with
  | [] => pat.isEmpty
  | _ :: t => pat.isPrefixOf l || listInfix pat t

/-- The two bytes of the "%n" count marker. -/
def strProN : List Nat := [37, 110]

/-- Big-endian byte pairs to UTF-16 units (lenient; dependency decode only). -/
def utf16beToUnits : List Nat → List Nat
  | b0 :: b1 :: rest => (b0 * 256 + b1) :: utf16beToUnits rest
  | _ => []

/-- Modelled from the spec: the external QDataStream collaborator reading the
Dependencies block as a sequence of length-prefixed UTF-16 strings
(0xFFFFFFFF marks a null string), until the stream is exhausted. -/
def parseDependenciesGo (fuel : Nat) (d : List Nat) (acc : List (List Nat)) :
    List (List Nat) :=
  match fuel, d with
  | 0, _ => acc
  | _, [] => acc
  | fuel + 1, _ =>
    let len := read32 d
    let d := d.drop 4
    if len = 4294967295 then parseDependenciesGo fuel d (acc ++ [[]])
    else parseDependenciesGo fuel (d.drop len) (acc ++ [utf16beToUnits (d.take len)])

def parseDependencies (d : List Nat) : List (List Nat) :=
  parseDependenciesGo (d.length + 1) d []

/-- The state of the loadQM block-scanning loop. -/
structure ScanState where
  tor : Translator
  message_array : List Nat := []
  offset_array : List Nat := []
  offset_length : Nat := 0
  ok : Bool := true
  utf8_fail : Bool := false

/-- The per-tag dispatch of the loadQM block loop; data is the remaining
suffix starting at the block payload, which the Hashes and Messages branches
keep whole by reference, exactly as the source keeps data.  The utf8_fail
flag is overwritten, not accumulated, by the Language fromBytes call. -/
def blockUpdate (tag : Nat) (data : List Nat) (block_length : Nat)
    (st : ScanState) : ScanState :=
  if tag = QMTag_Hashes then
    { st with offset_array := data, offset_length := block_length }
  else if tag = QMTag_Messages then
    { st with message_array := data }
  else if tag = QMTag_Dependencies then
    { st with tor :=
        { st.tor with m_dependencies := parseDependencies (data.take block_length) } }
  else if tag = QMTag_Language then
    let r := fromBytes data block_length
    { st with tor := { st.tor with m_language := r.1 }, utf8_fail := r.2 }
  else st

/-- The block-scanning loop of loadQM (while len(data) > 4), fuelled: every
iteration consumes at least six bytes, so length + 1 fuel always suffices. -/
def scanBlocksGo (fuel : Nat) (data : List Nat) (st : ScanState) : ScanState :=
  match fuel with
  | 0 => st
  | fuel + 1 =>
    if data.length > 4 then
      let tag := read8 data
      let data := data.drop 1
      let block_length := read32 data
      let data := data.drop 4
      if tag = 0 ∨ block_length = 0 then st
      else if block_length > data.length then { st with ok := false }
      else
        scanBlocksGo fuel (data.drop block_length)
          (blockUpdate tag data block_length st)
    else st

def scanBlocks (data : List Nat) (st : ScanState) : ScanState :=
  scanBlocksGo (data.length + 1) data st

/-- The possible outcomes of parsing one message record. -/
inductive RecordParse where
  | done (context source_text comment : List Nat)
         (translations : List (List Nat)) (utf8_fail : Bool)
  | fmtError   -- odd UTF-16 length: appendError("QM-Format error"), return False
  | crash      -- an uncaught exception (failed assert, utf-16 decode error)
deriving DecidableEq

/-- The record loop of loadQM (while m), fuelled: every iteration consumes at
least the tag byte, so length + 1 fuel always suffices.  utf8_fail is the
loadQM-level flag threaded through; each fromBytes overwrites it.  The head
byte b is the tag (read8 of a byte string is its first byte) and m1 the m[1:]
suffix; each branch re-reads its length from m1 where the source binds it
once, which is the same value. -/
def parseRecordGo (fuel : Nat) (m : List Nat) (ctx src cmt : List Nat)
    (tr : List (List Nat)) (u8 : Bool) : RecordParse :=
  match fuel with
  | 0 => .crash
  | fuel + 1 =>
    match m with
    | [] => .done ctx src cmt tr u8
    | b :: m1 =>
      if b = Tag_End then .done ctx src cmt tr u8
      else if b = Tag_Translation then
        if read32s m1 < -1 then .crash
        else if read32s m1 ≠ -1 ∧ read32s m1 % 2 = 1 then .fmtError
        else if read32s m1 ≠ -1 then
          match decodeUtf16le
              (if hostLittleEndian then
                swapPairs (List.take (read32s m1).toNat (m1.drop 4))
              else List.take (read32s m1).toNat (m1.drop 4)) with
          | none => .crash
          | some units =>
            parseRecordGo fuel (List.drop (read32s m1).toNat (m1.drop 4))
              ctx src cmt (tr ++ [units]) u8
        else parseRecordGo fuel (m1.drop 4) ctx src cmt tr u8
      else if b = Tag_Obsolete1 then
        parseRecordGo fuel (m1.drop 4) ctx src cmt tr u8
      else if b = Tag_SourceText then
        parseRecordGo fuel (List.drop (read32 m1) (m1.drop 4))
          ctx (fromBytes (m1.drop 4) (read32 m1)).1 cmt tr
          (fromBytes (m1.drop 4) (read32 m1)).2
      else if b = Tag_Context then
        parseRecordGo fuel (List.drop (read32 m1) (m1.drop 4))
          (fromBytes (m1.drop 4) (read32 m1)).1 src cmt tr
          (fromBytes (m1.drop 4) (read32 m1)).2
      else if b = Tag_Comment then
        parseRecordGo fuel (List.drop (read32 m1) (m1.drop 4))
          ctx src (fromBytes (m1.drop 4) (read32 m1)).1 tr
          (fromBytes (m1.drop 4) (read32 m1)).2
      else parseRecordGo fuel m1 ctx src cmt tr u8

def parseRecord (m : List Nat) (u8 : Bool) : RecordParse :=
  parseRecordGo (m.length + 1) m [] [] [] [] u8

/-- The possible outcomes of the offset-table message loop. -/
inductive LoadMsgs where
  | ok (msgs : List TranslatorMessage) (u8 : Bool)
  | fmtError (msgs : List TranslatorMessage)
  | crash
deriving DecidableEq

/-- The entry loadQM builds from one decoded record: marked Finished, plural
from the slot count or, as a fallback, from the count-marker heuristic. -/
def mkLoadedMsg (guess_plurals : Bool) (ctx src cmt : List Nat)
    (tr : List (List Nat)) : TranslatorMessage :=
  { m_type := .Finished,
    m_plural := if tr.length > 1 then true
                else guess_plurals && listInfix strProN src,
    m_translations := tr,
    m_context := ctx,
    m_sourcetext := src,
    m_comment := cmt }

/-- The offset-table loop of loadQM: one record per 8-byte entry, seeking the
message blob at the stored offset. -/
def loadMessagesGo (offA msgA : List Nat) (guess_plurals : Bool) :
    Nat → Nat → Bool → List TranslatorMessage → LoadMsgs
  | 0, _, u8, acc => .ok acc u8
  | count + 1, idx, u8, acc =>
    let start := idx * 8
    let ro := read32 (offA.drop (start + 4))
    let m := msgA.drop ro
    match parseRecord m u8 with
    | .crash => .crash
    | .fmtError => .fmtError acc
    | .done ctx src cmt tr u8' =>
      loadMessagesGo offA msgA guess_plurals count (idx + 1) u8'
        (acc ++ [mkLoadedMsg guess_plurals ctx src cmt tr])

/-- qm.py loadQM.  The outer Option is an uncaught Python exception; otherwise
the result is (return value, mutated translator, mutated conversion data).
Entries appended before an abort stay appended, as in the source. -/
def loadQM (tor : Translator) (data : List Nat) (cd : ConversionData) :
    Option (Bool × Translator × ConversionData) :=
  if ¬ magic.isPrefixOf data then
    some (false, tor, cd.appendError .magicMissing)
  else
    let data := data.drop magic.length
    let st := scanBlocks data { tor := tor }
    let num_items := st.offset_length / 8
    let lc := Translator.languageAndTerritory st.tor.m_language
    let nr := getNumerusInfo lc.1 lc.2
    let guess_plurals := if nr.2.2.2 then nr.2.1.length == 1 else true
    match loadMessagesGo st.offset_array st.message_array guess_plurals
        num_items 0 st.utf8_fail [] with
    | .crash => none
    | .fmtError msgs =>
      some (false, { st.tor with m_messages := st.tor.m_messages ++ msgs },
            cd.appendError .formatError)
    | .ok msgs u8 =>
      let tor' := { st.tor with m_messages := st.tor.m_messages ++ msgs }
      if u8 then some (false, tor', cd.appendError .invalidUtf8)
      else some (st.ok, tor', cd)

/-! ## Order lemmas for ByteTranslatorMessage.__lt__ -/

theorem btmLt_asymm (m1 m2 : ByteTranslatorMessage) (h : btmLt m1 m2 = true) :
    btmLt m2 m1 = false := by
  unfold btmLt at h ⊢
  by_cases hc : m1.m_context = m2.m_context
  · rw [hc] at h ⊢
    simp only [ne_eq, not_true_eq_false, if_false, ite_self] at h ⊢
    by_cases hs : m1.m_sourceText = m2.m_sourceText
    · rw [hs] at h ⊢
      simp only [ne_eq, not_true_eq_false, if_false, ite_self] at h ⊢
      exact bytesLt_asymm _ _ h
    · have hs' : m2.m_sourceText ≠ m1.m_sourceText := fun e => hs e.symm
      simp only [ne_eq, hs, hs', not_false_eq_true, if_true] at h ⊢
      exact bytesLt_asymm _ _ h
  · have hc' : m2.m_context ≠ m1.m_context := fun e => hc e.symm
    simp only [ne_eq, hc, hc', not_false_eq_true, if_true] at h ⊢
    exact bytesLt_asymm _ _ h

theorem btmLt_trans (m1 m2 m3 : ByteTranslatorMessage)
    (h12 : btmLt m1 m2 = true) (h23 : btmLt m2 m3 = true) : btmLt m1 m3 = true := by
  unfold btmLt at h12 h23 ⊢
  by_cases hc12 : m1.m_context = m2.m_context
  · by_cases hc23 : m2.m_context = m3.m_context
    · -- contexts all equal
      have hc13 : m1.m_context = m3.m_context := hc12.trans hc23
      rw [hc12] at h12
      rw [hc23] at h23
      rw [hc13]
      simp only [ne_eq, not_true_eq_false, if_false, ite_self] at h12 h23 ⊢
      by_cases hs12 : m1.m_sourceText = m2.m_sourceText
      · by_cases hs23 : m2.m_sourceText = m3.m_sourceText
        · have hs13 : m1.m_sourceText = m3.m_sourceText := hs12.trans hs23
          rw [hs12] at h12
          rw [hs23] at h23
          rw [hs13]
          simp only [ne_eq, not_true_eq_false, if_false, ite_self] at h12 h23 ⊢
          exact bytesLt_trans _ _ _ h12 h23
        · have hs13 : m1.m_sourceText ≠ m3.m_sourceText := by rw [hs12]; exact hs23
          simp only [ne_eq, hs23, hs13, not_false_eq_true, if_true] at h23 ⊢
          rw [hs12]
          exact h23
      · by_cases hs23 : m2.m_sourceText = m3.m_sourceText
        · have hs13 : m1.m_sourceText ≠ m3.m_sourceText := by rw [← hs23]; exact hs12
          simp only [ne_eq, hs12, hs13, not_false_eq_true, if_true] at h12 ⊢
          rw [← hs23]
          exact h12
        · simp only [ne_eq, hs12, hs23, not_false_eq_true, if_true] at h12 h23
          by_cases hs13 : m1.m_sourceText = m3.m_sourceText
          · exfalso
            rw [hs13] at h12
            have := bytesLt_asymm _ _ h12
            rw [this] at h23
            cases h23
          · simp only [ne_eq, hs13, not_false_eq_true, if_true]
            exact bytesLt_trans _ _ _ h12 h23
    · -- m2.ctx differs from m3.ctx, m1.ctx = m2.ctx
      have hc13 : m1.m_context ≠ m3.m_context := by rw [hc12]; exact hc23
      simp only [ne_eq, hc23, hc13, not_false_eq_true, if_true] at h23 ⊢
      rw [hc12]
      exact h23
  · by_cases hc23 : m2.m_context = m3.m_context
    · have hc13 : m1.m_context ≠ m3.m_context := by rw [← hc23]; exact hc12
      simp only [ne_eq, hc12, hc13, not_false_eq_true, if_true] at h12 ⊢
      rw [← hc23]
      exact h12
    · simp only [ne_eq, hc12, hc23, not_false_eq_true, if_true] at h12 h23
      by_cases hc13 : m1.m_context = m3.m_context
      · exfalso
        rw [hc13] at h12
        have := bytesLt_asymm _ _ h12
        rw [this] at h23
        cases h23
      · simp only [ne_eq, hc13, not_false_eq_true, if_true]
        exact bytesLt_trans _ _ _ h12 h23

/-! ## Lemmas about the squeeze message loop -/

theorem commonPfx_le (m1 m2 : ByteTranslatorMessage) : Releaser.commonPfx m1 m2 ≤ 4 := by
  unfold Releaser.commonPfx
  split_ifs <;> simp [pfxNone, pfxHash, pfxHashContext, pfxHashContextSourceText,
    pfxHashContextSourceTextComment]

theorem buildMessageArrayGo_isSome (mode : TranslatorSaveMode) :
    ∀ (msgs : List ByteTranslatorMessage) (prevPfx : Nat) (arr : List Nat)
      (offs : List ROffset), prevPfx ≤ 4 →
      msgs.Chain' (fun a b => Releaser.commonPfx a b ≠ pfxHashContextSourceTextComment) →
      (buildMessageArrayGo mode prevPfx arr offs msgs).isSome := by
  intro msgs
  induction msgs with
  | nil => intro prevPfx arr offs _ _; simp [buildMessageArrayGo]
  | cons it rest ih =>
    intro prevPfx arr offs hprev hchain
    cases rest with
    | nil =>
      have hp : ¬ 4 < max prevPfx (pfxNone + 1) := by
        simp only [pfxNone]; omega
      simp [buildMessageArrayGo, hp]
    | cons y ys =>
      have h1 : Releaser.commonPfx it y ≠ pfxHashContextSourceTextComment :=
        (List.chain'_cons.mp hchain).1
      have h2 := (List.chain'_cons.mp hchain).2
      have hle : Releaser.commonPfx it y ≤ 3 := by
        have := commonPfx_le it y
        simp only [pfxHashContextSourceTextComment] at h1
        omega
      have hp : ¬ 4 < max prevPfx (Releaser.commonPfx it y + 1) := by omega
      simp only [buildMessageArrayGo, hp, if_false, ite_false]
      exact ih (Releaser.commonPfx it y) _ _ (by omega) h2

theorem squeezeSortedMessages_ne_nil (msgs : List ByteTranslatorMessage)
    (h : msgs ≠ []) : squeezeSortedMessages msgs ≠ [] := by
  intro he
  have hp := pySort_perm btmLt msgs
  unfold squeezeSortedMessages at he
  rw [he] at hp
  exact h hp.symm.eq_nil

/-! ## Claim C9 (code_bug): elfHash outside 28 bits

qm.py elfHash ports the C version, whose uint h wraps at 32 bits, onto
unbounded Python ints; h &= ~g only clears bits 28..31, so a carry into bit 32
survives.  On bytes 0f 0f 0f 0f 0f 0f 0f 10 the hash is 2^32, outside the
claimed 28-bit range, and uint32(elfHash(...)) in squeeze would raise
OverflowError. -/

/-- C9: the claim says 1 <= elfHash(x) < 2^28 for every byte string x.  The
embedded elfHash evaluates to 2^32 on an 8-byte input, refuting the upper
bound; the non-zero lower bound does hold there. -/
theorem elfHash_not_28_bits :
    elfHash [15, 15, 15, 15, 15, 15, 15, 16] = 4294967296 ∧
    ¬ elfHash [15, 15, 15, 15, 15, 15, 15, 16] < 268435456 ∧
    1 ≤ elfHash [15, 15, 15, 15, 15, 15, 15, 16] := by decide

/-! ## Claim C6 (corrected): the context table size for 5000 contexts -/

/-- C6 counterexample: the claim says 5000 distinct contexts give bucket count
5003; the staircase in Releaser.squeeze gives 15013 (5003 is the 750..2499
band). -/
theorem hTableSize_5000_ne_5003 : hTableSize 5000 ≠ 5003 := by decide

/-- C6 amended: with 5000 distinct contexts the staircase sizes the context
hash table at 15013, the value of the whole 2500..9999 band. -/
theorem hTableSize_staircase_at_5000 :
    hTableSize 5000 = 15013 ∧
    ∀ n : Nat, 2500 ≤ n → n < 10000 → hTableSize n = 15013 := by
  refine ⟨by decide, ?_⟩
  intro n h1 h2
  unfold hTableSize
  rw [if_neg (by omega), if_neg (by omega), if_neg (by omega), if_neg (by omega),
    if_pos (by omega)]

theorem hTableSize_staircase_at_5000_witness :
    (2500 ≤ 5000 ∧ 5000 < 10000) ∧ hTableSize 5000 = 15013 :=
  ⟨⟨by decide, by decide⟩,
   hTableSize_staircase_at_5000.2 5000 (by decide) (by decide)⟩

/-! ## Claim C2 (code_bug): Translator.find ignores the id index

translator.py line 259 reads "if msg.id(): return self.m_msgIdx.get(...)",
the inverse of the C++ original "if (msg.id().isEmpty())": a message carrying
an id is answered from the content index and the id index is never consulted
(the id lookup below the early return runs only for empty ids, where it always
misses).  The store below holds one message with id "x"; querying a message
with the same id "x" but different content should, per the claim, return the
id-index hit at position 0, yet find returns -1. -/

/-- The stored message: id "x", context "c", source "s". -/
def findStoreMsg : TranslatorMessage :=
  { m_id := [120], m_context := [99], m_sourcetext := [115] }

/-- The query: the same id "x", different context "d" and source "t". -/
def findQueryMsg : TranslatorMessage :=
  { m_id := [120], m_context := [100], m_sourcetext := [116] }

/-- C2: the id "x" of the query is present in the id index at position 0, and
find on the query (same id, different content) returns -1 instead of 0. -/
theorem find_ignores_id_index :
    assocGet findQueryMsg.m_id (ensureIndexed [findStoreMsg]).idMsgIdx = some 0 ∧
    Translator.find { m_messages := [findStoreMsg] } findQueryMsg = -1 := by decide

/-! ## Claim C5 (corrected): the order of serialized records -/

/-- The ordering the spec asserts for serialized records: (hash, context,
sourceText, comment) compared lexicographically, hash first.  This definition
follows the spec wording, for comparison against the embedded encoder. -/
def specRecordKeyLe (a b : ByteTranslatorMessage) : Bool :=
  if Releaser.msgHash a ≠ Releaser.msgHash b then
    decide (Releaser.msgHash a < Releaser.msgHash b)
  else if a.m_context ≠ b.m_context then bytesLt a.m_context b.m_context
  else if a.m_sourceText ≠ b.m_sourceText then bytesLt a.m_sourceText b.m_sourceText
  else if a.m_comment ≠ b.m_comment then bytesLt a.m_comment b.m_comment
  else true

/-- C5 counterexample: squeeze serializes records in sorted(m_messages) order,
which compares (context, sourceText, comment) only.  For the two-message store
below that order is [(context "a", source "b"), (context "b", source "a")],
whose adjacent hashes are 98 and 97: the earlier key is greater than the later
one under the claimed (hash, context, sourceText, comment) ordering. -/
theorem squeeze_order_violates_hash_key :
    squeezeSortedMessages [⟨[97], [98], [], []⟩, ⟨[98], [97], [], []⟩] =
      [⟨[97], [98], [], []⟩, ⟨[98], [97], [], []⟩] ∧
    Releaser.msgHash ⟨[97], [98], [], []⟩ = 98 ∧
    Releaser.msgHash ⟨[98], [97], [], []⟩ = 97 ∧
    specRecordKeyLe ⟨[97], [98], [], []⟩ ⟨[98], [97], [], []⟩ = false := by decide

/-- C5 amended: the records squeeze serializes follow sorted(m_messages) under
ByteTranslatorMessage.__lt__, so every pair of records (adjacent ones in
particular) is non-decreasing in the (context, sourceText, comment) key
compared lexicographically on raw bytes; the hash participates only in the
separate offset-table ordering. -/
theorem squeeze_records_sorted_by_content_key (msgs : List ByteTranslatorMessage) :
    (squeezeSortedMessages msgs).Pairwise (fun a b => btmLt b a = false) :=
  pySort_pairwise btmLt btmLt_trans btmLt_asymm msgs

/-! ## Claim C10 (corrected): stripped-mode squeeze always raises -/

/-- C10 counterexample: on a store of two identical messages, stripped-mode
squeeze raises ValueError first - Prefix(max(prev_prefix, next_prefix + 1))
is Prefix(5) for adjacent sorted messages sharing hash, context, sourceText
and comment - so the claimed KeyError is not what every non-empty list
raises. -/
theorem squeeze_stripped_duplicates_value_error :
    Releaser.squeeze { m_messages := [⟨[99], [115], [], [[104]]⟩,
        ⟨[99], [115], [], [[104]]⟩] } .SaveStripped = .exc .valueError ∧
    PyExc.valueError ≠ PyExc.keyError := by
  exact ⟨rfl, by decide⟩

/-- The SaveStripped branch of squeeze raises KeyError on any non-empty
message list: context_set[it.context()] += 1 reads a key that was never
initialized. -/
theorem squeezeFinish_stripped_of_ne_nil (rel : Releaser)
    (messages : List ByteTranslatorMessage) (msgArr : List Nat)
    (offsets : List ROffset) (h : messages ≠ []) :
    squeezeFinish rel .SaveStripped messages msgArr offsets = .exc .keyError := by
  have hcs : buildContextSet messages [] = none := by
    cases messages with
    | nil => exact absurd rfl h
    | cons a rest => simp [buildContextSet, assocGet]
  simp [squeezeFinish, hcs]

/-- The offset entries the stripped-mode message loop accumulates (empty when
the loop itself raises). -/
def strippedOffsets (rel : Releaser) : List ROffset :=
  match buildMessageArray (squeezeSortedMessages rel.m_messages) .SaveStripped with
  | some p => p.2
  | none => []

/-- The per-record size bounds under which the uint32 calls inside
writeMessage stay in range, so the Python message loop raises nothing beyond
the Prefix(5) ValueError. -/
@[reducible] def RecordSizesOk (b : ByteTranslatorMessage) : Prop :=
  b.m_context.length < 4294967296 ∧ b.m_sourceText.length < 4294967296 ∧
  b.m_comment.length < 4294967296 ∧
  ∀ t ∈ b.m_translations, 2 * t.length < 4294967296

/-- C10 (corrected): stripped-mode squeeze of a non-empty store never
succeeds.  Some exception always escapes; when the message loop succeeds (no
Prefix(5) ValueError) and the record sizes are in range, the offset-array
build raises OverflowError if some entry hash or offset exceeds 32 bits, and
otherwise the context-counting dict increment raises KeyError before any
context table is built. -/
theorem squeeze_stripped_raises (rel : Releaser) (h : rel.m_messages ≠ []) :
    (∃ e : PyExc, Releaser.squeeze rel .SaveStripped = .exc e) ∧
    ((squeezeSortedMessages rel.m_messages).Chain'
        (fun a b => Releaser.commonPfx a b ≠ pfxHashContextSourceTextComment) →
      (∀ b ∈ rel.m_messages, RecordSizesOk b) →
      ((∀ k ∈ strippedOffsets rel, k.h < 4294967296 ∧ k.o < 4294967296) →
        Releaser.squeeze rel .SaveStripped = .exc .keyError) ∧
      (¬ (∀ k ∈ strippedOffsets rel, k.h < 4294967296 ∧ k.o < 4294967296) →
        Releaser.squeeze rel .SaveStripped = .exc .overflowError)) := by
  have hne := squeezeSortedMessages_ne_nil rel.m_messages h
  have hmm : ({ rel with m_dependencyArray := rel.m_dependencies.join }
      : Releaser).m_messages = rel.m_messages := rfl
  have hcond : ¬ (({ rel with m_dependencyArray := rel.m_dependencies.join }
      : Releaser).m_messages = [] ∧
      TranslatorSaveMode.SaveStripped = TranslatorSaveMode.SaveEverything) := by
    intro hx; cases hx.2
  constructor
  · unfold Releaser.squeeze squeezeGo
    rw [if_neg hcond]
    rw [hmm]
    cases hb : buildMessageArray (squeezeSortedMessages rel.m_messages)
        .SaveStripped with
    | none => exact ⟨.valueError, rfl⟩
    | some pr =>
      obtain ⟨msgArr, offsets⟩ := pr
      dsimp only
      by_cases hk : ∀ k ∈ offsets, k.h < 4294967296 ∧ k.o < 4294967296
      · rw [if_pos hk]
        exact ⟨.keyError, squeezeFinish_stripped_of_ne_nil _ _ _ _ hne⟩
      · rw [if_neg hk]
        exact ⟨.overflowError, rfl⟩
  · intro hchain _
    have hsome : (buildMessageArray (squeezeSortedMessages rel.m_messages)
        .SaveStripped).isSome :=
      buildMessageArrayGo_isSome .SaveStripped
        (squeezeSortedMessages rel.m_messages) pfxNone [] []
        (by simp [pfxNone]) hchain
    constructor
    · intro hk
      unfold Releaser.squeeze squeezeGo
      rw [if_neg hcond]
      rw [hmm]
      cases hb : buildMessageArray (squeezeSortedMessages rel.m_messages)
          .SaveStripped with
      | none =>
        rw [hb] at hsome
        cases hsome
      | some pr =>
        obtain ⟨msgArr, offsets⟩ := pr
        dsimp only
        have hoffs2 : strippedOffsets rel = offsets := by
          unfold strippedOffsets
          rw [hb]
        rw [if_pos (hoffs2 ▸ hk)]
        exact squeezeFinish_stripped_of_ne_nil _ _ _ _ hne
    · intro hk
      unfold Releaser.squeeze squeezeGo
      rw [if_neg hcond]
      rw [hmm]
      cases hb : buildMessageArray (squeezeSortedMessages rel.m_messages)
          .SaveStripped with
      | none =>
        rw [hb] at hsome
        cases hsome
      | some pr =>
        obtain ⟨msgArr, offsets⟩ := pr
        dsimp only
        have hoffs2 : strippedOffsets rel = offsets := by
          unfold strippedOffsets
          rw [hb]
        rw [if_neg (hoffs2 ▸ hk)]

theorem squeeze_stripped_raises_witness :
    ({ m_messages := [⟨[99], [115], [], [[104]]⟩] : Releaser }.m_messages ≠ [] ∧
      (squeezeSortedMessages
          ({ m_messages := [⟨[99], [115], [], [[104]]⟩] : Releaser }).m_messages).Chain'
        (fun a b => Releaser.commonPfx a b ≠ pfxHashContextSourceTextComment) ∧
      (∀ b ∈ ({ m_messages := [⟨[99], [115], [], [[104]]⟩] : Releaser }).m_messages,
        RecordSizesOk b) ∧
      (∀ k ∈ strippedOffsets { m_messages := [⟨[99], [115], [], [[104]]⟩] },
        k.h < 4294967296 ∧ k.o < 4294967296)) ∧
    Releaser.squeeze { m_messages := [⟨[99], [115], [], [[104]]⟩] }
      .SaveStripped = .exc .keyError :=
  ⟨⟨by decide, List.chain'_singleton _, by decide, by decide⟩,
   (((squeeze_stripped_raises { m_messages := [⟨[99], [115], [], [[104]]⟩] }
     (by decide)).2 (List.chain'_singleton _) (by decide)).1 (by decide))⟩

/-! ## Claim C3 counterexample input: a stream whose last block over-claims -/

/-- A stream whose single record carries an invalid UTF-8 comment (byte ff)
followed by a valid context. -/
def cex4stream : List Nat :=
  magic ++ [0x42] ++ uint32 8 ++ [0, 0, 0, 0, 0, 0, 0, 0] ++
  [0x69] ++ uint32 13 ++ ([8] ++ uint32 1 ++ [255] ++ [7] ++ uint32 1 ++ [99] ++ [1])

/-- C4: the comment bytes of cex4stream are invalid UTF-8, yet loadQM returns
True, appends no diagnostic, and keeps the decoded entry; the claim says the
decode must fail with a UTF-8 diagnostic once the blob is parsed. -/
theorem loadQM_utf8_flag_overwritten :
    validUtf8 [255] = false ∧
    loadQM {} cex4stream {} =
      some (true, { m_messages := [{ m_context := [99], m_type := .Finished }] }, {}) := by
  decide

/-! ## Round-trip support: the shape of a SaveEverything record -/

/-- The record bytes of one message in SaveEverything mode; the Prefix
argument of writeMessage is overridden there, so any value gives this. -/
def writeFull (m : ByteTranslatorMessage) : List Nat :=
  Releaser.writeMessage m .SaveEverything pfxNone

theorem writeMessage_everything (m : ByteTranslatorMessage) (p : Nat) :
    Releaser.writeMessage m .SaveEverything p = writeFull m := rfl

/-- The serialized bytes of one translation slot. -/
def trBytes (t : List Nat) : List Nat :=
  uint8 Tag_Translation ++ uint32 (toUtf16be t).length ++ toUtf16be t

/-- The comment, sourceText, context and end tags of a full record. -/
def cscEndBytes (m : ByteTranslatorMessage) : List Nat :=
  uint8 Tag_Comment ++ uint32 m.m_comment.length ++ m.m_comment ++
  uint8 Tag_SourceText ++ uint32 m.m_sourceText.length ++ m.m_sourceText ++
  uint8 Tag_Context ++ uint32 m.m_context.length ++ m.m_context ++
  uint8 Tag_End

theorem writeFull_eq (m : ByteTranslatorMessage) :
    writeFull m = (m.m_translations.map trBytes).join ++ cscEndBytes m := by
  unfold writeFull Releaser.writeMessage cscEndBytes trBytes
  simp [pfxHashContextSourceTextComment, pfxHashContextSourceText, pfxHashContext]

theorem toUtf16be_length (t : List Nat) : (toUtf16be t).length = 2 * t.length := by
  induction t with
  | nil => rfl
  | cons u us ih =>
    show (([u / 256 % 256, u % 256] ++ toUtf16be us)).length = 2 * (us.length + 1)
    simp only [List.length_append, List.length_cons, List.length_nil]
    omega

theorem trBytes_length (t : List Nat) : (trBytes t).length = 5 + 2 * t.length := by
  unfold trBytes
  simp [uint8, uint32, toUtf16be_length]
  omega

theorem writeFull_length (m : ByteTranslatorMessage) :
    (writeFull m).length =
      (m.m_translations.map (fun t => 5 + 2 * t.length)).sum + 16 +
        m.m_comment.length + m.m_sourceText.length + m.m_context.length := by
  rw [writeFull_eq]
  unfold cscEndBytes
  simp only [List.length_append, List.length_join, List.map_map]
  have : (m.m_translations.map (List.length ∘ trBytes)) =
      m.m_translations.map (fun t => 5 + 2 * t.length) := by
    apply List.map_congr_left
    intro t _
    simp [Function.comp, trBytes_length]
  rw [this]
  simp [uint8, uint32]
  omega

theorem writeFull_length_lower (m : ByteTranslatorMessage) :
    m.m_translations.length + 16 ≤ (writeFull m).length := by
  rw [writeFull_length]
  have : m.m_translations.length ≤
      (m.m_translations.map (fun t => 5 + 2 * t.length)).sum := by
    induction m.m_translations with
    | nil => simp
    | cons t ts ih => simp only [List.map_cons, List.sum_cons, List.length_cons]; omega
  omega

theorem beNat_uint32 (n : Nat) (h : n < 4294967296) : beNat (uint32 n) = n := by
  simp only [uint32, beNat, List.foldl]
  omega

theorem take_four_uint32_append (n : Nat) (rest : List Nat) :
    (uint32 n ++ rest).take 4 = uint32 n := by
  rw [show (4 : Nat) = (uint32 n).length from rfl, List.take_left]

theorem read32s_uint32_append (n : Nat) (rest : List Nat) (h : 2 * n < 4294967296) :
    read32s (uint32 n ++ rest) = (n : Int) := by
  unfold read32s
  rw [take_four_uint32_append, beNat_uint32 n (by omega)]
  rw [show (uint32 n).length = 4 from rfl]
  rw [if_pos (by exact_mod_cast h)]

theorem fromBytes_append (s rest : List Nat) (hv : validUtf8 s = true) :
    fromBytes (s ++ rest) s.length = (s, false) := by
  unfold fromBytes
  rw [List.take_left, hv]
  rw [if_pos rfl]

/-! ## Round-trip support: UTF-16 encode and decode invert each other -/

theorem utf16leUnits_swap_toUtf16be (t : List Nat) (h : ∀ u ∈ t, u < 65536) :
    utf16leUnits (swapPairs (toUtf16be t)) = some t := by
  induction t with
  | nil => rfl
  | cons u us ih =>
    have hu : u < 65536 := h u (List.mem_cons_self u us)
    have hrest := ih (fun v hv => h v (List.mem_cons_of_mem u hv))
    show utf16leUnits (swapPairs ([u / 256 % 256, u % 256] ++ toUtf16be us)) = _
    show utf16leUnits (swapPairs (u / 256 % 256 :: u % 256 :: toUtf16be us)) = _
    rw [show swapPairs (u / 256 % 256 :: u % 256 :: toUtf16be us) =
        u % 256 :: u / 256 % 256 :: swapPairs (toUtf16be us) from rfl]
    show (match utf16leUnits (swapPairs (toUtf16be us)) with
      | none => none
      | some us' => some ((u % 256 + 256 * (u / 256 % 256)) :: us')) = _
    rw [hrest]
    have : u % 256 + 256 * (u / 256 % 256) = u := by omega
    rw [this]

theorem decodeUtf16le_swap_toUtf16be (t : List Nat) (h : ∀ u ∈ t, u < 65536)
    (hv : validUtf16 t = true) :
    decodeUtf16le (swapPairs (toUtf16be t)) = some t := by
  unfold decodeUtf16le
  rw [utf16leUnits_swap_toUtf16be t h]
  simp [hv]

/-! ## Round-trip support: parsing one SaveEverything record -/

theorem parseRecordGo_cons (f : Nat) (b : Nat) (m1 ctx src cmt : List Nat)
    (tr : List (List Nat)) (u8 : Bool) :
    parseRecordGo (f + 1) (b :: m1) ctx src cmt tr u8 =
      (if b = Tag_End then .done ctx src cmt tr u8
      else if b = Tag_Translation then
        if read32s m1 < -1 then .crash
        else if read32s m1 ≠ -1 ∧ read32s m1 % 2 = 1 then .fmtError
        else if read32s m1 ≠ -1 then
          match decodeUtf16le
              (if hostLittleEndian then
                swapPairs (List.take (read32s m1).toNat (m1.drop 4))
              else List.take (read32s m1).toNat (m1.drop 4)) with
          | none => .crash
          | some units =>
            parseRecordGo f (List.drop (read32s m1).toNat (m1.drop 4))
              ctx src cmt (tr ++ [units]) u8
        else parseRecordGo f (m1.drop 4) ctx src cmt tr u8
      else if b = Tag_Obsolete1 then
        parseRecordGo f (m1.drop 4) ctx src cmt tr u8
      else if b = Tag_SourceText then
        parseRecordGo f (List.drop (read32 m1) (m1.drop 4))
          ctx (fromBytes (m1.drop 4) (read32 m1)).1 cmt tr
          (fromBytes (m1.drop 4) (read32 m1)).2
      else if b = Tag_Context then
        parseRecordGo f (List.drop (read32 m1) (m1.drop 4))
          (fromBytes (m1.drop 4) (read32 m1)).1 src cmt tr
          (fromBytes (m1.drop 4) (read32 m1)).2
      else if b = Tag_Comment then
        parseRecordGo f (List.drop (read32 m1) (m1.drop 4))
          ctx src (fromBytes (m1.drop 4) (read32 m1)).1 tr
          (fromBytes (m1.drop 4) (read32 m1)).2
      else parseRecordGo f m1 ctx src cmt tr u8) := rfl

theorem parseRecordGo_end (f : Nat) (rest ctx src cmt : List Nat)
    (tr : List (List Nat)) (u8 : Bool) :
    parseRecordGo (f + 1) (1 :: rest) ctx src cmt tr u8 = .done ctx src cmt tr u8 := by
  rw [parseRecordGo_cons]
  rw [if_pos (show (1 : Nat) = Tag_End from rfl)]

theorem parseRecordGo_translation_step (f : Nat) (t : List Nat)
    (rest ctx src cmt : List Nat) (tr : List (List Nat)) (u8 : Bool)
    (hu : ∀ u ∈ t, u < 65536) (hv : validUtf16 t = true)
    (hlen : 2 * t.length < 2147483648) :
    parseRecordGo (f + 1) (trBytes t ++ rest) ctx src cmt tr u8 =
      parseRecordGo f rest ctx src cmt (tr ++ [t]) u8 := by
  have hL : (toUtf16be t).length = 2 * t.length := toUtf16be_length t
  have hread : read32s (uint32 (toUtf16be t).length ++ (toUtf16be t ++ rest)) =
      ((toUtf16be t).length : Int) := read32s_uint32_append _ _ (by omega)
  have hshape : trBytes t ++ rest =
      3 :: (uint32 (toUtf16be t).length ++ (toUtf16be t ++ rest)) := by
    unfold trBytes uint8 Tag_Translation
    simp
  rw [hshape, parseRecordGo_cons]
  rw [if_neg (by decide), if_pos (show (3 : Nat) = Tag_Translation from rfl)]
  rw [hread]
  rw [if_neg (by omega)]
  rw [if_neg (by
    intro hx
    have h2 := hx.2
    rw [hL] at h2
    omega)]
  rw [if_pos (by
    rw [hL]
    omega)]
  rw [drop_uint32_append]
  rw [show (((toUtf16be t).length : Int)).toNat = (toUtf16be t).length from
    Int.toNat_natCast _]
  rw [List.take_left, List.drop_left]
  rw [show hostLittleEndian = true from rfl]
  rw [if_pos rfl]
  rw [decodeUtf16le_swap_toUtf16be t hu hv]

theorem parseRecordGo_comment_step (f : Nat) (payload rest ctx src cmt : List Nat)
    (tr : List (List Nat)) (u8 : Bool) (hlen : payload.length < 4294967296)
    (hv : validUtf8 payload = true) :
    parseRecordGo (f + 1)
        (uint8 Tag_Comment ++ uint32 payload.length ++ (payload ++ rest))
        ctx src cmt tr u8 =
      parseRecordGo f rest ctx src payload tr false := by
  have hshape : uint8 Tag_Comment ++ uint32 payload.length ++ (payload ++ rest) =
      8 :: (uint32 payload.length ++ (payload ++ rest)) := by
    unfold uint8 Tag_Comment
    simp
  rw [hshape, parseRecordGo_cons]
  rw [if_neg (by decide), if_neg (by decide), if_neg (by decide),
    if_neg (by decide), if_neg (by decide),
    if_pos (show (8 : Nat) = Tag_Comment from rfl)]
  rw [read32_uint32_append payload.length (payload ++ rest) hlen,
    drop_uint32_append, fromBytes_append payload rest hv, List.drop_left]

theorem parseRecordGo_source_step (f : Nat) (payload rest ctx src cmt : List Nat)
    (tr : List (List Nat)) (u8 : Bool) (hlen : payload.length < 4294967296)
    (hv : validUtf8 payload = true) :
    parseRecordGo (f + 1)
        (uint8 Tag_SourceText ++ uint32 payload.length ++ (payload ++ rest))
        ctx src cmt tr u8 =
      parseRecordGo f rest ctx payload cmt tr false := by
  have hshape : uint8 Tag_SourceText ++ uint32 payload.length ++ (payload ++ rest) =
      6 :: (uint32 payload.length ++ (payload ++ rest)) := by
    unfold uint8 Tag_SourceText
    simp
  rw [hshape, parseRecordGo_cons]
  rw [if_neg (by decide), if_neg (by decide), if_neg (by decide),
    if_pos (show (6 : Nat) = Tag_SourceText from rfl)]
  rw [read32_uint32_append payload.length (payload ++ rest) hlen,
    drop_uint32_append, fromBytes_append payload rest hv, List.drop_left]

theorem parseRecordGo_context_step (f : Nat) (payload rest ctx src cmt : List Nat)
    (tr : List (List Nat)) (u8 : Bool) (hlen : payload.length < 4294967296)
    (hv : validUtf8 payload = true) :
    parseRecordGo (f + 1)
        (uint8 Tag_Context ++ uint32 payload.length ++ (payload ++ rest))
        ctx src cmt tr u8 =
      parseRecordGo f rest payload src cmt tr false := by
  have hshape : uint8 Tag_Context ++ uint32 payload.length ++ (payload ++ rest) =
      7 :: (uint32 payload.length ++ (payload ++ rest)) := by
    unfold uint8 Tag_Context
    simp
  rw [hshape, parseRecordGo_cons]
  rw [if_neg (by decide), if_neg (by decide), if_neg (by decide),
    if_neg (by decide), if_pos (show (7 : Nat) = Tag_Context from rfl)]
  rw [read32_uint32_append payload.length (payload ++ rest) hlen,
    drop_uint32_append, fromBytes_append payload rest hv, List.drop_left]

/-- The per-slot validity a well-formed translation satisfies: UTF-16 units
below 2^16, well-paired surrogates, and a byte length within the signed
32-bit range the decoder reads. -/
@[reducible] def GoodSlot (t : List Nat) : Prop :=
  (∀ u ∈ t, u < 65536) ∧ validUtf16 t = true ∧ 2 * t.length < 2147483648

/-- The per-message validity of a serializable record: well-formed UTF-8
text fields within uint32 range and well-formed translations. -/
@[reducible] def GoodRecord (m : ByteTranslatorMessage) : Prop :=
  validUtf8 m.m_context = true ∧ validUtf8 m.m_sourceText = true ∧
  validUtf8 m.m_comment = true ∧
  m.m_context.length < 4294967296 ∧ m.m_sourceText.length < 4294967296 ∧
  m.m_comment.length < 4294967296 ∧
  ∀ t ∈ m.m_translations, GoodSlot t

theorem parseRecordGo_cscEnd (m : ByteTranslatorMessage) (suffix : List Nat)
    (hm : GoodRecord m) (g : Nat) (ctx0 src0 cmt0 : List Nat)
    (acc : List (List Nat)) (u8 : Bool) :
    parseRecordGo (g + 4) (cscEndBytes m ++ suffix) ctx0 src0 cmt0 acc u8 =
      .done m.m_context m.m_sourceText m.m_comment acc false := by
  obtain ⟨hctx, hsrc, hcmt, hctxl, hsrcl, hcmtl, _⟩ := hm
  have e1 : cscEndBytes m ++ suffix =
      uint8 Tag_Comment ++ uint32 m.m_comment.length ++ (m.m_comment ++
      (uint8 Tag_SourceText ++ uint32 m.m_sourceText.length ++ (m.m_sourceText ++
      (uint8 Tag_Context ++ uint32 m.m_context.length ++ (m.m_context ++
      (uint8 Tag_End ++ suffix)))))) := by
    unfold cscEndBytes
    simp [List.append_assoc]
  rw [e1]
  rw [show g + 4 = (g + 3) + 1 from rfl]
  rw [parseRecordGo_comment_step _ _ _ _ _ _ _ _ hcmtl hcmt]
  rw [show g + 3 = (g + 2) + 1 from rfl]
  rw [parseRecordGo_source_step _ _ _ _ _ _ _ _ hsrcl hsrc]
  rw [show g + 2 = (g + 1) + 1 from rfl]
  rw [parseRecordGo_context_step _ _ _ _ _ _ _ _ hctxl hctx]
  rw [show uint8 Tag_End ++ suffix = 1 :: suffix from rfl]
  rw [parseRecordGo_end]

theorem parseRecordGo_record (m : ByteTranslatorMessage) (suffix : List Nat)
    (hm : GoodRecord m) :
    ∀ (ts : List (List Nat)) (g : Nat) (ctx0 src0 cmt0 : List Nat)
      (acc : List (List Nat)) (u8 : Bool),
      (∀ t ∈ ts, GoodSlot t) →
      parseRecordGo (g + ts.length + 4)
          ((ts.map trBytes).join ++ (cscEndBytes m ++ suffix))
          ctx0 src0 cmt0 acc u8 =
        .done m.m_context m.m_sourceText m.m_comment (acc ++ ts) false := by
  intro ts
  induction ts with
  | nil =>
    intro g ctx0 src0 cmt0 acc u8 _
    simp only [List.map_nil, List.join_nil, List.nil_append, List.length_nil,
      Nat.add_zero, List.append_nil]
    exact parseRecordGo_cscEnd m suffix hm g ctx0 src0 cmt0 acc u8
  | cons t ts ih =>
    intro g ctx0 src0 cmt0 acc u8 hts
    have ht := hts t (List.mem_cons_self t ts)
    have e1 : ((t :: ts).map trBytes).join ++ (cscEndBytes m ++ suffix) =
        trBytes t ++ ((ts.map trBytes).join ++ (cscEndBytes m ++ suffix)) := by
      simp [List.append_assoc]
    rw [e1]
    rw [show g + (t :: ts).length + 4 = (g + ts.length + 4) + 1 from by
      simp only [List.length_cons]
      omega]
    rw [parseRecordGo_translation_step _ _ _ _ _ _ _ _ ht.1 ht.2.1 ht.2.2]
    rw [ih g ctx0 src0 cmt0 (acc ++ [t]) u8
      (fun x hx => hts x (List.mem_cons_of_mem t hx))]
    simp

theorem parseRecord_writeFull (m : ByteTranslatorMessage) (suffix : List Nat)
    (hm : GoodRecord m) :
    parseRecord (writeFull m ++ suffix) false =
      .done m.m_context m.m_sourceText m.m_comment m.m_translations false := by
  unfold parseRecord
  have hlow := writeFull_length_lower m
  have hfuel : (writeFull m ++ suffix).length + 1 =
      ((writeFull m ++ suffix).length + 1 - m.m_translations.length - 4) +
        m.m_translations.length + 4 := by
    simp only [List.length_append]
    omega
  rw [hfuel]
  rw [show writeFull m ++ suffix =
      (m.m_translations.map trBytes).join ++ (cscEndBytes m ++ suffix) from by
    rw [writeFull_eq, List.append_assoc]]
  rw [parseRecordGo_record m suffix hm m.m_translations _ [] [] [] [] false hm.2.2.2.2.2.2]
  simp

/-- The outcome loadQM keeps from one successfully parsed record with a clean
incoming UTF-8 flag. -/
def parsedMsg (gp : Bool) (m : List Nat) : Option TranslatorMessage :=
  match parseRecord m false with
  | .done c s cm tr false => some (mkLoadedMsg gp c s cm tr)
  | _ => none

theorem parsedMsg_writeFull (gp : Bool) (m : ByteTranslatorMessage)
    (suffix : List Nat) (hm : GoodRecord m) :
    parsedMsg gp (writeFull m ++ suffix) =
      some (mkLoadedMsg gp m.m_context m.m_sourceText m.m_comment
        m.m_translations) := by
  unfold parsedMsg
  rw [parseRecord_writeFull m suffix hm]

/-! ## Round-trip support: the squeeze output in SaveEverything mode -/

/-- The hash-offset entries squeeze accumulates: one per message, the offset
being the length of the message array written so far. -/
def offsetsFrom (base : Nat) : List ByteTranslatorMessage → List ROffset
  | [] => []
  | m :: rest =>
    ⟨Releaser.msgHash m, base⟩ :: offsetsFrom (base + (writeFull m).length) rest

theorem buildMessageArrayGo_one (mode : TranslatorSaveMode) (prevPfx : Nat)
    (arr : List Nat) (offs : List ROffset) (it : ByteTranslatorMessage) :
    buildMessageArrayGo mode prevPfx arr offs [it] =
      (if 4 < max prevPfx (pfxNone + 1) then none
       else buildMessageArrayGo mode pfxNone
         (arr ++ Releaser.writeMessage it mode (max prevPfx (pfxNone + 1)))
         (offs ++ [⟨Releaser.msgHash it, arr.length⟩]) []) := rfl

theorem buildMessageArrayGo_two (mode : TranslatorSaveMode) (prevPfx : Nat)
    (arr : List Nat) (offs : List ROffset) (it y : ByteTranslatorMessage)
    (ys : List ByteTranslatorMessage) :
    buildMessageArrayGo mode prevPfx arr offs (it :: y :: ys) =
      (if 4 < max prevPfx (Releaser.commonPfx it y + 1) then none
       else buildMessageArrayGo mode (Releaser.commonPfx it y)
         (arr ++ Releaser.writeMessage it mode
           (max prevPfx (Releaser.commonPfx it y + 1)))
         (offs ++ [⟨Releaser.msgHash it, arr.length⟩]) (y :: ys)) := rfl

theorem buildMessageArrayGo_everything :
    ∀ (msgs : List ByteTranslatorMessage) (prevPfx : Nat) (arr : List Nat)
      (offs : List ROffset),
      prevPfx ≤ 4 →
      msgs.Chain'
        (fun a b => Releaser.commonPfx a b ≠ pfxHashContextSourceTextComment) →
      buildMessageArrayGo .SaveEverything prevPfx arr offs msgs =
        some (arr ++ (msgs.map writeFull).join,
              offs ++ offsetsFrom arr.length msgs) := by
  intro msgs
  induction msgs with
  | nil =>
    intro prevPfx arr offs _ _
    simp [buildMessageArrayGo, offsetsFrom]
  | cons it rest ih =>
    intro prevPfx arr offs hle hch
    cases rest with
    | nil =>
      have hp : ¬ 4 < max prevPfx (pfxNone + 1) := by
        simp only [pfxNone]
        omega
      rw [buildMessageArrayGo_one, if_neg hp]
      simp [buildMessageArrayGo, offsetsFrom, writeMessage_everything]
    | cons y ys =>
      have h1 : Releaser.commonPfx it y ≠ pfxHashContextSourceTextComment :=
        (List.chain'_cons.mp hch).1
      have h2 := (List.chain'_cons.mp hch).2
      have hle1 : Releaser.commonPfx it y ≤ 3 := by
        have := commonPfx_le it y
        simp only [pfxHashContextSourceTextComment] at h1
        omega
      have hp : ¬ 4 < max prevPfx (Releaser.commonPfx it y + 1) := by omega
      rw [buildMessageArrayGo_two, if_neg hp]
      rw [ih (Releaser.commonPfx it y) _ _ (by omega) h2]
      simp [offsetsFrom, writeMessage_everything, List.append_assoc]

/-- The releaser state squeeze returns in SaveEverything mode on a non-empty
message list whose sorted order never repeats a full prefix key. -/
def squeezeResult (rel : Releaser) : Releaser :=
  { rel with
    m_dependencyArray := rel.m_dependencies.join,
    m_messageArray :=
      ((squeezeSortedMessages rel.m_messages).map writeFull).join,
    m_offsetArray :=
      squeezeOffsetArray (offsetsFrom 0 (squeezeSortedMessages rel.m_messages)),
    m_contextArray := [],
    m_messages := [] }

theorem squeeze_everything (rel : Releaser) (hne : rel.m_messages ≠ [])
    (hch : (squeezeSortedMessages rel.m_messages).Chain'
      (fun a b => Releaser.commonPfx a b ≠ pfxHashContextSourceTextComment))
    (hkb : ∀ k ∈ offsetsFrom 0 (squeezeSortedMessages rel.m_messages),
      k.h < 4294967296 ∧ k.o < 4294967296) :
    Releaser.squeeze rel .SaveEverything = .ok (squeezeResult rel) := by
  unfold Releaser.squeeze squeezeGo
  rw [if_neg (by
    intro hx
    exact hne hx.1)]
  have hsort : squeezeSortedMessages
      ({ rel with m_dependencyArray := rel.m_dependencies.join }).m_messages =
      squeezeSortedMessages rel.m_messages := rfl
  rw [hsort]
  rw [show buildMessageArray (squeezeSortedMessages rel.m_messages)
        .SaveEverything =
      buildMessageArrayGo .SaveEverything pfxNone [] []
        (squeezeSortedMessages rel.m_messages) from rfl]
  rw [buildMessageArrayGo_everything _ pfxNone [] [] (by simp [pfxNone]) hch]
  dsimp only
  rw [if_pos (show ∀ k ∈ ([] : List ROffset) ++
      offsetsFrom ([] : List Nat).length (squeezeSortedMessages rel.m_messages),
      k.h < 4294967296 ∧ k.o < 4294967296 from by simpa using hkb)]
  rfl

/-! ## Round-trip support: the saveQM message loop with default options -/

/-- The byte message Releaser.insert appends when forceComment holds
(originalBytes being the identity on the UTF-8 embedding). -/
def toByteMsg (m : TranslatorMessage) : ByteTranslatorMessage :=
  ⟨m.m_context, m.m_sourcetext, m.m_comment, m.m_translations⟩

/-- A message the saveQM loop under a default ConversionData passes through
unchanged: Finished, or Unfinished with a non-empty first translation (so it
is not skipped as untranslated), and an empty comment (which makes
force_comment true, skipping the comment-stripping duplicate probe). -/
@[reducible] def PlainSaveMsg (m : TranslatorMessage) : Prop :=
  (m.m_type = .Finished ∨ (m.m_type = .Unfinished ∧ m.translation ≠ [])) ∧
  m.m_comment = []

theorem saveQMLoop_plain (tor : Translator) :
    ∀ (msgs : List TranslatorMessage) (rel : Releaser) (stats : SaveStats),
      (∀ m ∈ msgs, PlainSaveMsg m) →
      (saveQMLoop tor {} msgs rel stats).1 =
        { rel with m_messages := rel.m_messages ++ msgs.map toByteMsg } ∧
      (saveQMLoop tor {} msgs rel stats).2.missing_ids = stats.missing_ids ∧
      (saveQMLoop tor {} msgs rel stats).2.dropped_data = stats.dropped_data := by
  intro msgs
  induction msgs with
  | nil =>
    intro rel stats _
    exact ⟨by simp [saveQMLoop], rfl, rfl⟩
  | cons m rest ih =>
    intro rel stats h
    have hm := h m (List.mem_cons_self m rest)
    have hrest : ∀ x ∈ rest, PlainSaveMsg x :=
      fun x hx => h x (List.mem_cons_of_mem m hx)
    rcases hm with ⟨htyp, hcmt⟩
    have hstep : ∃ stats1, saveQMLoop tor {} (m :: rest) rel stats =
        saveQMLoop tor {} rest
          { rel with m_messages := rel.m_messages ++ [toByteMsg m] } stats1 ∧
        stats1.missing_ids = stats.missing_ids ∧
        stats1.dropped_data = stats.dropped_data := by
      rcases htyp with hF | ⟨hU, hT⟩
      · refine ⟨{ stats with finished := stats.finished + 1 }, ?_, rfl, rfl⟩
        simp [saveQMLoop, hF, hcmt, Releaser.insert, toByteMsg,
          Releaser.originalBytes]
      · refine ⟨{ stats with unfinished := stats.unfinished + 1 }, ?_, rfl, rfl⟩
        simp [saveQMLoop, hU, hT, hcmt, Releaser.insert, toByteMsg,
          Releaser.originalBytes]
    obtain ⟨stats1, he, h2, h3⟩ := hstep
    rw [he]
    obtain ⟨ih1, ih2, ih3⟩ := ih _ stats1 hrest
    refine ⟨?_, by rw [ih2, h2], by rw [ih3, h3]⟩
    rw [ih1]
    simp [List.append_assoc]

/-! ## Round-trip support: scanning the blocks of a saved stream -/

theorem scanBlocksGo_nil (f : Nat) (st : ScanState) :
    scanBlocksGo f [] st = st := by
  cases f with
  | zero => rfl
  | succ f => rfl

theorem scanBlocksGo_succ (f : Nat) (data : List Nat) (st : ScanState) :
    scanBlocksGo (f + 1) data st =
      (if data.length > 4 then
        if read8 data = 0 ∨ read32 (data.drop 1) = 0 then st
        else if read32 (data.drop 1) > ((data.drop 1).drop 4).length then
          { st with ok := false }
        else
          scanBlocksGo f (((data.drop 1).drop 4).drop (read32 (data.drop 1)))
            (blockUpdate (read8 data) ((data.drop 1).drop 4)
              (read32 (data.drop 1)) st)
      else st) := rfl

theorem scanBlocksGo_block (f tag : Nat) (payload rest : List Nat)
    (st : ScanState) (htag : tag ≠ 0) (hlen0 : payload.length ≠ 0)
    (hlen32 : payload.length < 4294967296) :
    scanBlocksGo (f + 1) (tag :: (uint32 payload.length ++ (payload ++ rest))) st =
      scanBlocksGo f rest (blockUpdate tag (payload ++ rest) payload.length st) := by
  rw [scanBlocksGo_succ]
  have hdrop1 : (tag :: (uint32 payload.length ++ (payload ++ rest))).drop 1 =
      uint32 payload.length ++ (payload ++ rest) := rfl
  have hread8 : read8 (tag :: (uint32 payload.length ++ (payload ++ rest))) = tag := by
    show beNat [tag] = tag
    simp [beNat]
  rw [if_pos (by
    simp only [List.length_cons, List.length_append, uint32_length]
    omega)]
  rw [hdrop1, hread8, read32_uint32_append _ _ hlen32, drop_uint32_append]
  rw [if_neg (by
    push_neg
    exact ⟨htag, hlen0⟩)]
  rw [if_neg (by
    simp only [gt_iff_lt, not_lt, List.length_append]
    omega)]
  rw [List.drop_left]

theorem blockUpdate_hashes (d : List Nat) (bl : Nat) (st : ScanState) :
    blockUpdate 66 d bl st = { st with offset_array := d, offset_length := bl } := by
  simp [blockUpdate, QMTag_Hashes]

theorem blockUpdate_messages (d : List Nat) (bl : Nat) (st : ScanState) :
    blockUpdate 105 d bl st = { st with message_array := d } := by
  simp [blockUpdate, QMTag_Hashes, QMTag_Messages]

theorem blockUpdate_language_eq (d : List Nat) (bl : Nat) (st : ScanState) :
    blockUpdate 167 d bl st =
      { st with
        tor := { st.tor with m_language := (fromBytes d bl).1 },
        utf8_fail := (fromBytes d bl).2 } := by
  simp [blockUpdate, QMTag_Hashes, QMTag_Messages, QMTag_Dependencies,
    QMTag_Language]

theorem blockUpdate_other (d : List Nat) (bl : Nat) (st : ScanState) :
    blockUpdate 136 d bl st = st := by
  simp [blockUpdate, QMTag_Hashes, QMTag_Messages, QMTag_Dependencies,
    QMTag_Language]

theorem scanBlocks_save (lang hashA msgA numA : List Nat) (tor0 : Translator)
    (hl0 : lang.length ≠ 0) (hl32 : lang.length < 4294967296)
    (hlv : validUtf8 lang = true)
    (hh0 : hashA.length ≠ 0) (hh32 : hashA.length < 4294967296)
    (hm0 : msgA.length ≠ 0) (hm32 : msgA.length < 4294967296)
    (hn0 : numA.length ≠ 0) (hn32 : numA.length < 4294967296) :
    scanBlocks
      ((uint8 QMTag_Language ++ uint32 lang.length ++ lang) ++
       ((uint8 QMTag_Hashes ++ uint32 hashA.length ++ hashA) ++
        ((uint8 QMTag_Messages ++ uint32 msgA.length ++ msgA) ++
         (uint8 QMTag_NumerusRules ++ uint32 numA.length ++ numA))))
      { tor := tor0 } =
      { tor := { tor0 with m_language := lang },
        message_array :=
          msgA ++ (uint8 QMTag_NumerusRules ++ uint32 numA.length ++ numA),
        offset_array :=
          hashA ++ ((uint8 QMTag_Messages ++ uint32 msgA.length ++ msgA) ++
            (uint8 QMTag_NumerusRules ++ uint32 numA.length ++ numA)),
        offset_length := hashA.length,
        ok := true,
        utf8_fail := false } := by
  unfold scanBlocks
  rw [show ((uint8 QMTag_Language ++ uint32 lang.length ++ lang) ++
       ((uint8 QMTag_Hashes ++ uint32 hashA.length ++ hashA) ++
        ((uint8 QMTag_Messages ++ uint32 msgA.length ++ msgA) ++
         (uint8 QMTag_NumerusRules ++ uint32 numA.length ++ numA)))).length + 1 =
      (((uint8 QMTag_Language ++ uint32 lang.length ++ lang) ++
       ((uint8 QMTag_Hashes ++ uint32 hashA.length ++ hashA) ++
        ((uint8 QMTag_Messages ++ uint32 msgA.length ++ msgA) ++
         (uint8 QMTag_NumerusRules ++ uint32 numA.length ++ numA)))).length - 3)
        + 1 + 1 + 1 + 1 from by
    simp only [List.length_append, uint32_length, List.length_cons, uint8,
      List.length_nil]
    omega]
  rw [show (uint8 QMTag_Language ++ uint32 lang.length ++ lang) ++
       ((uint8 QMTag_Hashes ++ uint32 hashA.length ++ hashA) ++
        ((uint8 QMTag_Messages ++ uint32 msgA.length ++ msgA) ++
         (uint8 QMTag_NumerusRules ++ uint32 numA.length ++ numA))) =
      167 :: (uint32 lang.length ++ (lang ++
        ((uint8 QMTag_Hashes ++ uint32 hashA.length ++ hashA) ++
         ((uint8 QMTag_Messages ++ uint32 msgA.length ++ msgA) ++
          (uint8 QMTag_NumerusRules ++ uint32 numA.length ++ numA))))) from by
    simp [uint8, QMTag_Language, List.append_assoc]]
  rw [scanBlocksGo_block _ _ _ _ _ (by decide) hl0 hl32]
  rw [show (uint8 QMTag_Hashes ++ uint32 hashA.length ++ hashA) ++
        ((uint8 QMTag_Messages ++ uint32 msgA.length ++ msgA) ++
         (uint8 QMTag_NumerusRules ++ uint32 numA.length ++ numA)) =
      66 :: (uint32 hashA.length ++ (hashA ++
        ((uint8 QMTag_Messages ++ uint32 msgA.length ++ msgA) ++
         (uint8 QMTag_NumerusRules ++ uint32 numA.length ++ numA)))) from by
    simp [uint8, QMTag_Hashes, List.append_assoc]]
  rw [scanBlocksGo_block _ _ _ _ _ (by decide) hh0 hh32]
  rw [show (uint8 QMTag_Messages ++ uint32 msgA.length ++ msgA) ++
        (uint8 QMTag_NumerusRules ++ uint32 numA.length ++ numA) =
      105 :: (uint32 msgA.length ++ (msgA ++
        (uint8 QMTag_NumerusRules ++ uint32 numA.length ++ numA))) from by
    simp [uint8, QMTag_Messages, List.append_assoc]]
  rw [scanBlocksGo_block _ _ _ _ _ (by decide) hm0 hm32]
  rw [show uint8 QMTag_NumerusRules ++ uint32 numA.length ++ numA =
      136 :: (uint32 numA.length ++ (numA ++ ([] : List Nat))) from by
    simp [uint8, QMTag_NumerusRules, List.append_assoc]]
  rw [scanBlocksGo_block _ _ _ _ _ (by decide) hn0 hn32]
  rw [scanBlocksGo_nil]
  rw [blockUpdate_language_eq, blockUpdate_hashes, blockUpdate_messages,
    blockUpdate_other]
  rw [fromBytes_append lang _ hlv]

/-! ## Round-trip support: decoding the sorted offset entries -/

/-- The 8 bytes of one offset-table entry. -/
def entryBytes (k : ROffset) : List Nat := uint32 k.h ++ uint32 k.o

theorem squeezeOffsetArray_eq (offs : List ROffset) :
    squeezeOffsetArray offs = (pySort bytesLt (offs.map entryBytes)).join := rfl

/-- The message the offset loop decodes from one 8-byte entry: seek the
message array at the stored offset and parse one record. -/
def decodeEntry (msgA : List Nat) (gp : Bool) (e : List Nat) : TranslatorMessage :=
  match parsedMsg gp (msgA.drop (read32 (e.drop 4))) with
  | some msg => msg
  | none => {}

theorem read32_uint32 (n : Nat) (h : n < 4294967296) : read32 (uint32 n) = n := by
  have := read32_uint32_append n [] h
  simpa using this

theorem entryBytes_read (k : ROffset) (h : k.o < 4294967296) :
    read32 ((entryBytes k).drop 4) = k.o := by
  unfold entryBytes
  rw [drop_uint32_append, read32_uint32 _ h]

theorem offsetsFrom_decode (msgA : List Nat) (gp : Bool) :
    ∀ (ms : List ByteTranslatorMessage) (base : Nat) (tail : List Nat),
      (∀ b ∈ ms, GoodRecord b) →
      msgA.drop base = (ms.map writeFull).join ++ tail →
      base + ((ms.map writeFull).join).length < 4294967296 →
      ((offsetsFrom base ms).map (fun k => decodeEntry msgA gp (entryBytes k)) =
        ms.map (fun b =>
          mkLoadedMsg gp b.m_context b.m_sourceText b.m_comment
            b.m_translations)) ∧
      (∀ k ∈ offsetsFrom base ms,
        parsedMsg gp (msgA.drop (read32 ((entryBytes k).drop 4))) =
          some (decodeEntry msgA gp (entryBytes k))) := by
  intro ms
  induction ms with
  | nil =>
    intro base tail _ _ _
    exact ⟨rfl, by intro k hk; cases hk⟩
  | cons b ms ih =>
    intro base tail hgood hdrop hbound
    have hb := hgood b (List.mem_cons_self b ms)
    have hjoin : ((b :: ms).map writeFull).join =
        writeFull b ++ (ms.map writeFull).join := by simp
    have hdropb : msgA.drop base =
        writeFull b ++ ((ms.map writeFull).join ++ tail) := by
      rw [hdrop, hjoin, List.append_assoc]
    rw [hjoin, List.length_append] at hbound
    have hbase32 : base < 4294967296 := by omega
    have hparse_b : parsedMsg gp (msgA.drop base) =
        some (mkLoadedMsg gp b.m_context b.m_sourceText b.m_comment
          b.m_translations) := by
      rw [hdropb]
      exact parsedMsg_writeFull gp b _ hb
    have hread_b : read32 ((entryBytes (⟨Releaser.msgHash b, base⟩ : ROffset)).drop 4) =
        base := entryBytes_read _ hbase32
    have hdec_b : decodeEntry msgA gp (entryBytes ⟨Releaser.msgHash b, base⟩) =
        mkLoadedMsg gp b.m_context b.m_sourceText b.m_comment b.m_translations := by
      unfold decodeEntry
      rw [hread_b, hparse_b]
    have hdrop' : msgA.drop (base + (writeFull b).length) =
        (ms.map writeFull).join ++ tail := by
      rw [← List.drop_drop, hdropb, List.drop_left]
    have hbound' : (base + (writeFull b).length) +
        ((ms.map writeFull).join).length < 4294967296 := by omega
    have hrest : ∀ x ∈ ms, GoodRecord x :=
      fun x hx => hgood x (List.mem_cons_of_mem b hx)
    obtain ⟨ihmap, ihmem⟩ := ih (base + (writeFull b).length) tail hrest hdrop' hbound'
    constructor
    · show decodeEntry msgA gp (entryBytes ⟨Releaser.msgHash b, base⟩) ::
        (offsetsFrom (base + (writeFull b).length) ms).map
          (fun k => decodeEntry msgA gp (entryBytes k)) = _
      rw [hdec_b, ihmap]
      rfl
    · intro k hk
      rcases List.mem_cons.mp hk with hk0 | hk1
      · subst hk0
        rw [hread_b, hparse_b, hdec_b]
      · exact ihmem k hk1

/-- The offset loop over a run of 8-byte entries laid out contiguously from
position idx * 8 of the offset array, each of which parses successfully. -/
theorem loadMessagesGo_entries (offA msgA tail : List Nat) (gp : Bool) :
    ∀ (es : List (List Nat)) (idx : Nat) (acc : List TranslatorMessage),
      (∀ e ∈ es, e.length = 8) →
      offA.drop (idx * 8) = es.join ++ tail →
      (∀ e ∈ es, parsedMsg gp (msgA.drop (read32 (e.drop 4))) =
        some (decodeEntry msgA gp e)) →
      loadMessagesGo offA msgA gp es.length idx false acc =
        .ok (acc ++ es.map (decodeEntry msgA gp)) false := by
  intro es
  induction es with
  | nil =>
    intro idx acc _ _ _
    simp [loadMessagesGo]
  | cons e es ih =>
    intro idx acc h8 hoff hp
    have he8 : e.length = 8 := h8 e (List.mem_cons_self e es)
    have hpe := hp e (List.mem_cons_self e es)
    have hoffe : offA.drop (idx * 8) = e ++ (es.join ++ tail) := by
      rw [hoff]
      simp [List.append_assoc]
    have hread : read32 (offA.drop (idx * 8 + 4)) = read32 (e.drop 4) := by
      have h1 : offA.drop (idx * 8 + 4) = e.drop 4 ++ (es.join ++ tail) := by
        rw [← List.drop_drop, hoffe,
          List.drop_append_of_le_length (by omega)]
      rw [h1]
      unfold read32
      rw [List.take_left' (by rw [List.length_drop, he8])]
      rw [show (e.drop 4).take 4 = e.drop 4 from
        List.take_of_length_le (by rw [List.length_drop, he8])]
    have hoff' : offA.drop ((idx + 1) * 8) = es.join ++ tail := by
      rw [show (idx + 1) * 8 = idx * 8 + 8 from by omega, ← List.drop_drop, hoffe,
        List.drop_left' he8]
    cases hq : parseRecord (msgA.drop (read32 (offA.drop (idx * 8 + 4)))) false with
    | done c s cm tr u8f =>
      cases u8f with
      | false =>
        have hval : mkLoadedMsg gp c s cm tr = decodeEntry msgA gp e := by
          rw [hread] at hq
          simp [parsedMsg, hq] at hpe
          exact hpe
        have hstep : loadMessagesGo offA msgA gp (e :: es).length idx false acc =
            loadMessagesGo offA msgA gp es.length (idx + 1) false
              (acc ++ [mkLoadedMsg gp c s cm tr]) := by
          simp only [List.length_cons, loadMessagesGo, hq]
        rw [hstep, hval,
          ih (idx + 1) _ (fun x hx => h8 x (List.mem_cons_of_mem e hx)) hoff'
            (fun x hx => hp x (List.mem_cons_of_mem e hx))]
        simp
      | true =>
        exfalso
        rw [hread] at hq
        simp [parsedMsg, hq] at hpe
    | fmtError =>
      exfalso
      rw [hread] at hq
      simp [parsedMsg, hq] at hpe
    | crash =>
      exfalso
      rw [hread] at hq
      simp [parsedMsg, hq] at hpe

/-! ## Round-trip support: saveQM under default options -/

theorem commonPfx_eq_full (a b : ByteTranslatorMessage)
    (h : Releaser.commonPfx a b = pfxHashContextSourceTextComment) :
    a.m_context = b.m_context ∧ a.m_sourceText = b.m_sourceText ∧
    a.m_comment = b.m_comment := by
  unfold Releaser.commonPfx at h
  by_cases h1 : Releaser.msgHash a ≠ Releaser.msgHash b
  · rw [if_pos h1] at h
    exact absurd h (by decide)
  · rw [if_neg h1] at h
    by_cases h2 : a.m_context ≠ b.m_context
    · rw [if_pos h2] at h
      exact absurd h (by decide)
    · rw [if_neg h2] at h
      by_cases h3 : a.m_sourceText ≠ b.m_sourceText
      · rw [if_pos h3] at h
        exact absurd h (by decide)
      · rw [if_neg h3] at h
        by_cases h4 : a.m_comment ≠ b.m_comment
        · rw [if_pos h4] at h
          exact absurd h (by decide)
        · exact ⟨not_not.mp h2, not_not.mp h3, not_not.mp h4⟩

/-- The full (context, sourceText, comment) record key; two messages collide
in the squeeze prefix computation exactly when their keys agree. -/
@[reducible] def DistinctKeys (l : List ByteTranslatorMessage) : Prop :=
  l.Pairwise (fun a b => ¬(a.m_context = b.m_context ∧
    a.m_sourceText = b.m_sourceText ∧ a.m_comment = b.m_comment))

theorem sorted_chain_of_distinct_keys (l : List ByteTranslatorMessage)
    (hkeys : DistinctKeys l) :
    (squeezeSortedMessages l).Chain'
      (fun a b => Releaser.commonPfx a b ≠ pfxHashContextSourceTextComment) := by
  have hperm := pySort_perm btmLt l
  have hp2 : (squeezeSortedMessages l).Pairwise (fun a b =>
      ¬(a.m_context = b.m_context ∧ a.m_sourceText = b.m_sourceText ∧
        a.m_comment = b.m_comment)) :=
    (hperm.pairwise_iff
      (fun hab hc => hab ⟨hc.1.symm, hc.2.1.symm, hc.2.2.symm⟩)).mpr hkeys
  exact (hp2.imp (fun h hcp => h (commonPfx_eq_full _ _ hcp))).chain'

theorem saveQM_plain (tor : Translator)
    (hfound : (getNumerusInfo (Translator.languageAndTerritory tor.m_language).1
      (Translator.languageAndTerritory tor.m_language).2).2.2.2 = true)
    (hdeps : tor.m_dependencies = [])
    (hne : tor.m_messages ≠ [])
    (hplain : ∀ m ∈ tor.m_messages, PlainSaveMsg m)
    (hkeys : DistinctKeys (tor.m_messages.map toByteMsg))
    (hkb : ∀ k ∈ offsetsFrom 0
        (squeezeSortedMessages (tor.m_messages.map toByteMsg)),
      k.h < 4294967296 ∧ k.o < 4294967296) :
    saveQM tor {} = .ok (true,
      (squeezeResult
        { m_language := tor.m_language,
          m_numerusRules := (getNumerusInfo
            (Translator.languageAndTerritory tor.m_language).1
            (Translator.languageAndTerritory tor.m_language).2).1,
          m_messages := tor.m_messages.map toByteMsg }).save, {}) := by
  obtain ⟨hl1, hl2, hl3⟩ := saveQMLoop_plain tor tor.m_messages
    { m_language := tor.m_language,
      m_numerusRules := (getNumerusInfo
        (Translator.languageAndTerritory tor.m_language).1
        (Translator.languageAndTerritory tor.m_language).2).1 } {} hplain
  have hch := sorted_chain_of_distinct_keys _ hkeys
  have hne2 : (tor.m_messages.map toByteMsg) ≠ [] := by
    intro h
    exact hne (List.map_eq_nil.mp h)
  simp only [saveQM]
  rw [if_pos hfound]
  rw [hl1, hl2, hl3]
  rw [if_neg (by decide), if_neg (by decide)]
  rw [hdeps]
  have hsq := squeeze_everything
    { m_language := tor.m_language,
      m_numerusRules := (getNumerusInfo
        (Translator.languageAndTerritory tor.m_language).1
        (Translator.languageAndTerritory tor.m_language).2).1,
      m_messages := tor.m_messages.map toByteMsg } hne2 hch hkb
  simp only [List.nil_append]
  rw [hsq]
  simp

/-! ## Round-trip support: loading the saved stream -/

theorem isPrefixOf_append_self (l r : List Nat) : l.isPrefixOf (l ++ r) = true := by
  induction l with
  | nil => simp [List.isPrefixOf]
  | cons a t ih => simp [List.isPrefixOf, ih]

theorem join_const8 (es : List (List Nat)) (h : ∀ e ∈ es, e.length = 8) :
    es.join.length = 8 * es.length := by
  induction es with
  | nil => rfl
  | cons e es ih =>
    simp only [List.join_cons, List.length_append, List.length_cons]
    rw [h e (List.mem_cons_self e es),
      ih (fun x hx => h x (List.mem_cons_of_mem e hx))]
    omega

theorem offsetsFrom_length (ms : List ByteTranslatorMessage) :
    ∀ base, (offsetsFrom base ms).length = ms.length := by
  induction ms with
  | nil => intro base; rfl
  | cons b ms ih =>
    intro base
    simp only [offsetsFrom, List.length_cons, ih]

theorem offsetsFrom_bounds (ms : List ByteTranslatorMessage) :
    ∀ base, ∀ k ∈ offsetsFrom base ms,
      (∃ b ∈ ms, k.h = Releaser.msgHash b) ∧
      k.o ≤ base + ((ms.map writeFull).join).length := by
  induction ms with
  | nil =>
    intro base k hk
    cases hk
  | cons b ms ih =>
    intro base k hk
    have hjoinlen : (((b :: ms).map writeFull).join).length =
        (writeFull b).length + ((ms.map writeFull).join).length := by
      simp
    rcases List.mem_cons.mp hk with hk0 | hk1
    · subst hk0
      refine ⟨⟨b, List.mem_cons_self b ms, rfl⟩, ?_⟩
      show base ≤ base + (((b :: ms).map writeFull).join).length
      exact Nat.le_add_right base _
    · obtain ⟨⟨b2, hb2, hh⟩, ho⟩ := ih (base + (writeFull b).length) k hk1
      exact ⟨⟨b2, List.mem_cons_of_mem b hb2, hh⟩, by omega⟩

theorem join_writeFull_lower (ms : List ByteTranslatorMessage) :
    16 * ms.length ≤ ((ms.map writeFull).join).length := by
  induction ms with
  | nil => simp
  | cons b ms ih =>
    simp only [List.map_cons, List.join_cons, List.length_append, List.length_cons]
    simp only [List.join] at ih
    have := writeFull_length_lower b
    omega

theorem releaser_save_shape (rel : Releaser)
    (hl : rel.m_language ≠ []) (hd : rel.m_dependencyArray = [])
    (ho : rel.m_offsetArray ≠ []) (hm : rel.m_messageArray ≠ [])
    (hc : rel.m_contextArray = []) (hn : rel.m_numerusRules ≠ []) :
    rel.save = magic ++
      ((uint8 QMTag_Language ++ uint32 rel.m_language.length ++ rel.m_language) ++
       ((uint8 QMTag_Hashes ++ uint32 rel.m_offsetArray.length ++
          rel.m_offsetArray) ++
        ((uint8 QMTag_Messages ++ uint32 rel.m_messageArray.length ++
           rel.m_messageArray) ++
         (uint8 QMTag_NumerusRules ++ uint32 rel.m_numerusRules.length ++
           rel.m_numerusRules)))) := by
  unfold Releaser.save
  rw [if_pos hl, if_neg (by rw [hd]; exact fun h => h rfl), if_pos ho, if_pos hm,
    if_neg (by rw [hc]; exact fun h => h rfl), if_pos hn]
  simp [List.append_assoc]

theorem loadQM_saved (L numR : List Nat) (ms : List ByteTranslatorMessage)
    (hl0 : L ≠ []) (hlv : validUtf8 L = true) (hl32 : L.length < 4294967296)
    (hn0 : numR ≠ []) (hn32 : numR.length < 4294967296)
    (hms0 : ms ≠ []) (hgood : ∀ b ∈ ms, GoodRecord b)
    (hsize : ((ms.map writeFull).join).length < 4294967296)
    (hfound : (getNumerusInfo (Translator.languageAndTerritory L).1
      (Translator.languageAndTerritory L).2).2.2.2 = true)
    (hforms : 2 ≤ (getNumerusInfo (Translator.languageAndTerritory L).1
      (Translator.languageAndTerritory L).2).2.1.length) :
    loadQM {} (Releaser.save
      { m_language := L,
        m_messageArray := (ms.map writeFull).join,
        m_offsetArray := squeezeOffsetArray (offsetsFrom 0 ms),
        m_contextArray := [],
        m_messages := [],
        m_numerusRules := numR,
        m_dependencies := [],
        m_dependencyArray := [] }) {} =
      some (true,
        { m_language := L,
          m_messages := (pySort bytesLt ((offsetsFrom 0 ms).map entryBytes)).map
            (decodeEntry ((ms.map writeFull).join ++
              (uint8 QMTag_NumerusRules ++ uint32 numR.length ++ numR)) false) },
        {}) := by
  have h8 : ∀ e ∈ pySort bytesLt ((offsetsFrom 0 ms).map entryBytes),
      e.length = 8 := by
    intro e he
    have hmem := (pySort_perm bytesLt ((offsetsFrom 0 ms).map entryBytes)).mem_iff.mp he
    obtain ⟨k, _, rfl⟩ := List.mem_map.mp hmem
    rfl
  have hjoin8 : (squeezeOffsetArray (offsetsFrom 0 ms)).length = 8 * ms.length := by
    rw [squeezeOffsetArray_eq, join_const8 _ h8, (pySort_perm _ _).length_eq,
      List.length_map, offsetsFrom_length]
  have hmslen : 1 ≤ ms.length := List.length_pos.mpr hms0
  have hMBlow := join_writeFull_lower ms
  have hh0 : (squeezeOffsetArray (offsetsFrom 0 ms)).length ≠ 0 := by
    rw [hjoin8]
    omega
  have hh32 : (squeezeOffsetArray (offsetsFrom 0 ms)).length < 4294967296 := by
    rw [hjoin8]
    omega
  have hm0 : ((ms.map writeFull).join).length ≠ 0 := by omega
  have hshape2 : Releaser.save
      { m_language := L,
        m_messageArray := (ms.map writeFull).join,
        m_offsetArray := squeezeOffsetArray (offsetsFrom 0 ms),
        m_contextArray := [],
        m_messages := [],
        m_numerusRules := numR,
        m_dependencies := [],
        m_dependencyArray := [] } = magic ++
      ((uint8 QMTag_Language ++ uint32 L.length ++ L) ++
       ((uint8 QMTag_Hashes ++
          uint32 (squeezeOffsetArray (offsetsFrom 0 ms)).length ++
          squeezeOffsetArray (offsetsFrom 0 ms)) ++
        ((uint8 QMTag_Messages ++ uint32 ((ms.map writeFull).join).length ++
           (ms.map writeFull).join) ++
         (uint8 QMTag_NumerusRules ++ uint32 numR.length ++ numR)))) :=
    releaser_save_shape _ hl0 rfl
      (fun h => hh0 (by rw [show squeezeOffsetArray (offsetsFrom 0 ms) = [] from h]; rfl))
      (fun h => hm0 (by rw [show ((ms.map writeFull).join : List Nat) = [] from h]; rfl))
      rfl hn0
  have hscan := scanBlocks_save L (squeezeOffsetArray (offsetsFrom 0 ms))
    ((ms.map writeFull).join) numR {}
    (fun h => hl0 (List.length_eq_zero.mp h)) hl32 hlv
    hh0 hh32 hm0 (by omega)
    (fun h => hn0 (List.length_eq_zero.mp h)) hn32
  have hdec := offsetsFrom_decode ((ms.map writeFull).join ++
      (uint8 QMTag_NumerusRules ++ uint32 numR.length ++ numR)) false ms 0
      (uint8 QMTag_NumerusRules ++ uint32 numR.length ++ numR) hgood
      (by rw [List.drop_zero]) (by omega)
  have hload := loadMessagesGo_entries
    (squeezeOffsetArray (offsetsFrom 0 ms) ++
      ((uint8 QMTag_Messages ++ uint32 ((ms.map writeFull).join).length ++
         (ms.map writeFull).join) ++
       (uint8 QMTag_NumerusRules ++ uint32 numR.length ++ numR)))
    ((ms.map writeFull).join ++
      (uint8 QMTag_NumerusRules ++ uint32 numR.length ++ numR))
    ((uint8 QMTag_Messages ++ uint32 ((ms.map writeFull).join).length ++
       (ms.map writeFull).join) ++
     (uint8 QMTag_NumerusRules ++ uint32 numR.length ++ numR))
    false
    (pySort bytesLt ((offsetsFrom 0 ms).map entryBytes)) 0 [] h8
    (by
      rw [Nat.zero_mul, List.drop_zero, squeezeOffsetArray_eq])
    (fun e he => by
      obtain ⟨k, hk, rfl⟩ :=
        List.mem_map.mp ((pySort_perm _ _).mem_iff.mp he)
      exact hdec.2 k hk)
  have hcount : (squeezeOffsetArray (offsetsFrom 0 ms)).length / 8 =
      (pySort bytesLt ((offsetsFrom 0 ms).map entryBytes)).length := by
    rw [hjoin8, (pySort_perm _ _).length_eq, List.length_map, offsetsFrom_length]
    exact Nat.mul_div_cancel_left _ (by norm_num)
  have hgpfalse : ((getNumerusInfo (Translator.languageAndTerritory L).1
      (Translator.languageAndTerritory L).2).2.1.length == 1) = false := by
    have hne1 : (getNumerusInfo (Translator.languageAndTerritory L).1
        (Translator.languageAndTerritory L).2).2.1.length ≠ 1 := by omega
    exact beq_eq_false_iff_ne.mpr hne1
  simp only [loadQM]
  rw [hshape2]
  rw [if_neg (not_not_intro (isPrefixOf_append_self magic _))]
  rw [List.drop_left]
  rw [hscan]
  dsimp only
  rw [if_pos hfound, hgpfalse, hcount, hload]
  simp

/-- With plural guessing off (at least two plural forms for the target
language), a loaded record rebuilds the original entry with its type coerced
to Finished, provided the entry had no id and normalized slot counts. -/
theorem mkLoadedMsg_coerce (m : TranslatorMessage) (fc : Nat)
    (hid : m.m_id = [])
    (hslots : m.m_translations.length = if m.m_plural then fc else 1)
    (hfc : 2 ≤ fc) :
    mkLoadedMsg false (toByteMsg m).m_context (toByteMsg m).m_sourceText
      (toByteMsg m).m_comment (toByteMsg m).m_translations =
      { m with m_type := MsgType.Finished } := by
  obtain ⟨mid, mctx, msrc, mcmt, mtr, mty, mpl⟩ := m
  dsimp only at hid hslots ⊢
  subst hid
  cases mpl with
  | false =>
    simp at hslots
    have hnot : ¬ mtr.length > 1 := by omega
    simp [mkLoadedMsg, toByteMsg, hnot]
  | true =>
    simp at hslots
    have hgt : mtr.length > 1 := by omega
    simp [mkLoadedMsg, toByteMsg, hgt]

/-- C1 (corrected): round-trip loadQM ∘ saveQM.  For a dependency-free store
whose entries are Finished (or Unfinished with a translation), comment-free,
id-free, with well-formed UTF-8 fields, normalized plural slot counts for a
known target language with at least two plural forms, pairwise-distinct
record keys, record hashes within 32 bits (elfHash is unbounded, see C9:
outside that range Python raises OverflowError in squeeze instead of saving)
and a total record size below 2^32, saving then loading yields the same
entries up to sort order with the type coerced to Finished.  (The original
claim fails without the comment-free condition: comments are dropped, see
the counterexample.) -/
theorem loadQM_saveQM_roundtrip (tor : Translator)
    (hne : tor.m_messages ≠ [])
    (hlang0 : tor.m_language ≠ [])
    (hlangv : validUtf8 tor.m_language = true)
    (hlang32 : tor.m_language.length < 4294967296)
    (hdeps : tor.m_dependencies = [])
    (hfound : (getNumerusInfo (Translator.languageAndTerritory tor.m_language).1
      (Translator.languageAndTerritory tor.m_language).2).2.2.2 = true)
    (hrules0 : (getNumerusInfo (Translator.languageAndTerritory tor.m_language).1
      (Translator.languageAndTerritory tor.m_language).2).1 ≠ [])
    (hrules32 : (getNumerusInfo (Translator.languageAndTerritory tor.m_language).1
      (Translator.languageAndTerritory tor.m_language).2).1.length < 4294967296)
    (hforms : 2 ≤ (getNumerusInfo (Translator.languageAndTerritory tor.m_language).1
      (Translator.languageAndTerritory tor.m_language).2).2.1.length)
    (hmsgs : ∀ m ∈ tor.m_messages, PlainSaveMsg m ∧ m.m_id = [] ∧
      GoodRecord (toByteMsg m) ∧
      m.m_translations.length =
        (if m.m_plural then
          (getNumerusInfo (Translator.languageAndTerritory tor.m_language).1
            (Translator.languageAndTerritory tor.m_language).2).2.1.length
         else 1))
    (hkeys : DistinctKeys (tor.m_messages.map toByteMsg))
    (hhash : ∀ m ∈ tor.m_messages,
      Releaser.msgHash (toByteMsg m) < 4294967296)
    (hsize : (((tor.m_messages.map toByteMsg).map writeFull).join).length <
      4294967296) :
    ∃ out tor2, saveQM tor {} = .ok (true, out, {}) ∧
      loadQM {} out {} = some (true, tor2, {}) ∧
      tor2.m_language = tor.m_language ∧
      tor2.m_messages.Perm (tor.m_messages.map
        (fun m => { m with m_type := MsgType.Finished })) := by
  have hplain : ∀ m ∈ tor.m_messages, PlainSaveMsg m := fun m hm => (hmsgs m hm).1
  have hpermB : (squeezeSortedMessages (tor.m_messages.map toByteMsg)).Perm
      (tor.m_messages.map toByteMsg) := pySort_perm _ _
  have hgoodS : ∀ b ∈ squeezeSortedMessages (tor.m_messages.map toByteMsg),
      GoodRecord b := by
    intro b hb
    obtain ⟨m, hm, rfl⟩ := List.mem_map.mp (hpermB.mem_iff.mp hb)
    exact (hmsgs m hm).2.2.1
  have hms0S : squeezeSortedMessages (tor.m_messages.map toByteMsg) ≠ [] := by
    intro h
    rw [h] at hpermB
    exact hne (List.map_eq_nil.mp hpermB.symm.eq_nil)
  have hsumeq : (((squeezeSortedMessages (tor.m_messages.map toByteMsg)).map
      writeFull).join).length =
      (((tor.m_messages.map toByteMsg).map writeFull).join).length := by
    simp only [List.length_join]
    exact ((hpermB.map writeFull).map List.length).sum_eq
  have hsizeS : (((squeezeSortedMessages (tor.m_messages.map toByteMsg)).map
      writeFull).join).length < 4294967296 := by
    rw [hsumeq]
    exact hsize
  have hkb : ∀ k ∈ offsetsFrom 0
      (squeezeSortedMessages (tor.m_messages.map toByteMsg)),
      k.h < 4294967296 ∧ k.o < 4294967296 := by
    intro k hk
    obtain ⟨⟨b, hb, hh⟩, ho⟩ := offsetsFrom_bounds _ 0 k hk
    constructor
    · rw [hh]
      obtain ⟨m, hm, rfl⟩ := List.mem_map.mp (hpermB.mem_iff.mp hb)
      exact hhash m hm
    · omega
  have hsave := saveQM_plain tor hfound hdeps hne hplain hkeys hkb
  have hload := loadQM_saved tor.m_language
    (getNumerusInfo (Translator.languageAndTerritory tor.m_language).1
      (Translator.languageAndTerritory tor.m_language).2).1
    (squeezeSortedMessages (tor.m_messages.map toByteMsg))
    hlang0 hlangv hlang32 hrules0 hrules32 hms0S hgoodS hsizeS hfound hforms
  refine ⟨_, _, hsave, hload, rfl, ?_⟩
  have hdec := offsetsFrom_decode
    (((squeezeSortedMessages (tor.m_messages.map toByteMsg)).map writeFull).join ++
      (uint8 QMTag_NumerusRules ++
        uint32 (getNumerusInfo (Translator.languageAndTerritory tor.m_language).1
          (Translator.languageAndTerritory tor.m_language).2).1.length ++
        (getNumerusInfo (Translator.languageAndTerritory tor.m_language).1
          (Translator.languageAndTerritory tor.m_language).2).1))
    false (squeezeSortedMessages (tor.m_messages.map toByteMsg)) 0
    (uint8 QMTag_NumerusRules ++
      uint32 (getNumerusInfo (Translator.languageAndTerritory tor.m_language).1
        (Translator.languageAndTerritory tor.m_language).2).1.length ++
      (getNumerusInfo (Translator.languageAndTerritory tor.m_language).1
        (Translator.languageAndTerritory tor.m_language).2).1)
    hgoodS (by rw [List.drop_zero]) (by omega)
  have hstep1 := (pySort_perm bytesLt
    ((offsetsFrom 0 (squeezeSortedMessages (tor.m_messages.map toByteMsg))).map
      entryBytes)).map
    (decodeEntry
      (((squeezeSortedMessages (tor.m_messages.map toByteMsg)).map writeFull).join ++
        (uint8 QMTag_NumerusRules ++
          uint32 (getNumerusInfo (Translator.languageAndTerritory tor.m_language).1
            (Translator.languageAndTerritory tor.m_language).2).1.length ++
          (getNumerusInfo (Translator.languageAndTerritory tor.m_language).1
            (Translator.languageAndTerritory tor.m_language).2).1))
      false)
  have hstep2 : (((offsetsFrom 0
      (squeezeSortedMessages (tor.m_messages.map toByteMsg))).map entryBytes).map
      (decodeEntry
        (((squeezeSortedMessages (tor.m_messages.map toByteMsg)).map
          writeFull).join ++
          (uint8 QMTag_NumerusRules ++
            uint32 (getNumerusInfo
              (Translator.languageAndTerritory tor.m_language).1
              (Translator.languageAndTerritory tor.m_language).2).1.length ++
            (getNumerusInfo (Translator.languageAndTerritory tor.m_language).1
              (Translator.languageAndTerritory tor.m_language).2).1))
        false)) =
      (squeezeSortedMessages (tor.m_messages.map toByteMsg)).map
        (fun b => mkLoadedMsg false b.m_context b.m_sourceText b.m_comment
          b.m_translations) := by
    rw [List.map_map]
    exact hdec.1
  rw [hstep2] at hstep1
  have hstep3 := hpermB.map
    (fun b => mkLoadedMsg false b.m_context b.m_sourceText b.m_comment
      b.m_translations)
  have hstep4 : ((tor.m_messages.map toByteMsg).map
      (fun b => mkLoadedMsg false b.m_context b.m_sourceText b.m_comment
        b.m_translations)) =
      tor.m_messages.map (fun m => { m with m_type := MsgType.Finished }) := by
    rw [List.map_map]
    apply List.map_congr_left
    intro m hm
    exact mkLoadedMsg_coerce m _ (hmsgs m hm).2.1 (hmsgs m hm).2.2.2 hforms
  rw [hstep4] at hstep3
  exact hstep1.trans hstep3

/-- A Finished, comment-free, id-free entry with one translation slot. -/
def rtWitnessMsg : TranslatorMessage :=
  { m_context := [99],
    m_sourcetext := [115],
    m_comment := [],
    m_translations := [[104]],
    m_type := .Finished }

/-- A one-entry Latvian store satisfying every round-trip precondition. -/
def rtWitnessTor : Translator :=
  { m_messages := [rtWitnessMsg],
    m_language := [108, 118] }

/-- C1 witness: the round-trip theorem applied to the one-entry store. -/
theorem loadQM_saveQM_roundtrip_witness :
    ∃ out tor2, saveQM rtWitnessTor {} = .ok (true, out, {}) ∧
      loadQM {} out {} = some (true, tor2, {}) ∧
      tor2.m_language = rtWitnessTor.m_language ∧
      tor2.m_messages.Perm (rtWitnessTor.m_messages.map
        (fun m => { m with m_type := MsgType.Finished })) :=
  loadQM_saveQM_roundtrip rtWitnessTor (by decide) (by decide) (by decide)
    (by decide) (by decide) (by decide) (by decide) (by decide) (by decide)
    (by decide) (by decide) (by decide) (by decide)

/-- The save-then-load pipeline, keeping the reloaded translator of a decode
that reports success after a successful save. -/
def rtOutcome (tor : Translator) : Option Translator :=
  match saveQM tor {} with
  | PyResult.ok (true, out, _) =>
    match loadQM {} out {} with
    | some (true, tor2, _) => some tor2
    | _ => none
  | _ => none

/-- The entry of rtWitnessTor with a comment attached. -/
def cexRtMsg : TranslatorMessage :=
  { m_context := [99],
    m_sourcetext := [115],
    m_comment := [120],
    m_translations := [[104]],
    m_type := .Finished }

/-- The same store with a comment on its single entry. -/
def cexRtTor : Translator :=
  { m_messages := [cexRtMsg],
    m_language := [108, 118] }

/-- C1 counterexample: a Finished, normalized, well-formed entry carrying a
comment does not survive the round-trip: saveQM silently strips the comment
(Releaser.insert stores the comment-less variant when force_comment is
false), so the reloaded store is not a permutation of the coerced original,
refuting the unconditional claim. -/
theorem qm_roundtrip_drops_comment :
    rtOutcome cexRtTor =
      some { m_messages := [rtWitnessMsg], m_language := [108, 118] } ∧
    ¬ ([rtWitnessMsg].Perm
        (cexRtTor.m_messages.map (fun m => { m with m_type := MsgType.Finished }))) := by
  refine ⟨by decide, ?_⟩
  intro hp
  have heq := List.perm_singleton.mp hp.symm
  have h2 := congrArg (fun l => l.map (fun m => m.m_comment)) heq
  simp [cexRtTor, cexRtMsg, rtWitnessMsg] at h2

/-! ## Claim C7 (confirmed): normalizeTranslations -/

theorem normalizeMsg_length (ccnt : Nat) (msg : TranslatorMessage) :
    (normalizeMsg ccnt msg).m_translations.length = ccnt := by
  unfold normalizeMsg
  by_cases heq : msg.m_translations.length = ccnt
  · rw [if_neg (by exact fun h => h heq)]
    exact heq
  · rw [if_pos heq]
    by_cases hlt : msg.m_translations.length < ccnt
    · rw [if_pos hlt]
      simp only [List.length_append, List.length_replicate]
      omega
    · rw [if_neg hlt]
      simp only [List.length_take]
      omega

theorem normalizeMsg_plural (ccnt : Nat) (msg : TranslatorMessage) :
    (normalizeMsg ccnt msg).m_plural = msg.m_plural := by
  unfold normalizeMsg
  split_ifs <;> rfl

theorem normalizeLoop_length (np : Nat) :
    ∀ (l : List TranslatorMessage) (t : Bool),
      ∀ m' ∈ (normalizeLoop np l t).1,
        m'.m_translations.length = if m'.m_plural then np else 1 := by
  intro l
  induction l with
  | nil => intro t m' hm; simp [normalizeLoop] at hm
  | cons msg rest ih =>
    intro t m' hm
    simp only [normalizeLoop] at hm
    rcases List.mem_cons.mp hm with rfl | hm'
    · rw [normalizeMsg_plural, normalizeMsg_length]
    · exact ih _ m' hm'

theorem normalizeLoop_flag (np : Nat) :
    ∀ (l : List TranslatorMessage) (t : Bool),
      ((normalizeLoop np l t).2 = true ↔
        (t = true ∨ ∃ m ∈ l,
          (if m.m_plural then np else 1) < m.m_translations.length)) := by
  intro l
  induction l with
  | nil => intro t; simp [normalizeLoop]
  | cons msg rest ih =>
    intro t
    show (normalizeLoop np rest _).2 = true ↔ _
    rw [ih]
    by_cases hgt : (if msg.m_plural then np else 1) < msg.m_translations.length
    · rw [if_pos hgt]
      constructor
      · intro _
        exact Or.inr ⟨msg, List.mem_cons_self msg rest, hgt⟩
      · intro _
        exact Or.inl rfl
    · rw [if_neg hgt]
      constructor
      · rintro (h | ⟨m, hm, hh⟩)
        · exact Or.inl h
        · exact Or.inr ⟨m, List.mem_cons_of_mem _ hm, hh⟩
      · rintro (h | ⟨m, hm, hh⟩)
        · exact Or.inl h
        · rcases List.mem_cons.mp hm with rfl | hm'
          · exact absurd hh hgt
          · exact Or.inr ⟨m, hm', hh⟩

/-- C7: after normalizeTranslations against a known non-C target language,
every entry holds exactly formCount slots when plural and one slot otherwise,
and the truncation diagnostic is appended to the conversion data exactly when
some entry had more slots than required. -/
theorem normalizeTranslations_spec (tor : Translator) (cd : ConversionData)
    (hC : (Translator.languageAndTerritory tor.m_language).1 ≠ QLocale.C)
    (hOk : (getNumerusInfo (Translator.languageAndTerritory tor.m_language).1
        (Translator.languageAndTerritory tor.m_language).2).2.2.2 = true) :
    (∀ m' ∈ (Translator.normalizeTranslations tor cd).1.m_messages,
        m'.m_translations.length =
          if m'.m_plural then
            (getNumerusInfo (Translator.languageAndTerritory tor.m_language).1
              (Translator.languageAndTerritory tor.m_language).2).2.1.length
          else 1) ∧
    ((Translator.normalizeTranslations tor cd).2.m_errors =
        if ∃ m ∈ tor.m_messages,
            (if m.m_plural then
              (getNumerusInfo (Translator.languageAndTerritory tor.m_language).1
                (Translator.languageAndTerritory tor.m_language).2).2.1.length
            else 1) < m.m_translations.length
        then cd.m_errors ++ [QmError.truncatedPluralForms]
        else cd.m_errors) := by
  unfold Translator.normalizeTranslations
  simp only [hC, hOk, ne_eq, not_false_eq_true, if_true, ite_true]
  constructor
  · intro m' hm'
    exact normalizeLoop_length _ tor.m_messages false m' hm'
  · by_cases hany : ∃ m ∈ tor.m_messages,
        (if m.m_plural then
          (getNumerusInfo (Translator.languageAndTerritory tor.m_language).1
            (Translator.languageAndTerritory tor.m_language).2).2.1.length
        else 1) < m.m_translations.length
    · have hflag : (normalizeLoop
          (getNumerusInfo (Translator.languageAndTerritory tor.m_language).1
            (Translator.languageAndTerritory tor.m_language).2).2.1.length
          tor.m_messages false).2 = true :=
        (normalizeLoop_flag _ tor.m_messages false).mpr (Or.inr hany)
      rw [if_pos hany]
      simp only [hflag, if_true, ite_true, ConversionData.appendError]
    · have hflag : ¬ (normalizeLoop
          (getNumerusInfo (Translator.languageAndTerritory tor.m_language).1
            (Translator.languageAndTerritory tor.m_language).2).2.1.length
          tor.m_messages false).2 = true := by
        intro hx
        rcases (normalizeLoop_flag _ tor.m_messages false).mp hx with h | h
        · cases h
        · exact hany h
      rw [if_neg hany]
      rw [Bool.not_eq_true] at hflag
      simp [hflag]

/-- A plural entry with one slot (padded to three for Latvian) and a
non-plural entry with two slots (truncated to one). -/
def normWitnessTor : Translator :=
  { m_messages :=
      [{ m_plural := true, m_translations := [[104]] },
       { m_translations := [[104], [105]] }],
    m_language := [108, 118] }

theorem normalizeTranslations_spec_witness :
    ((Translator.languageAndTerritory normWitnessTor.m_language).1 ≠ QLocale.C ∧
      (getNumerusInfo (Translator.languageAndTerritory normWitnessTor.m_language).1
        (Translator.languageAndTerritory normWitnessTor.m_language).2).2.2.2 = true) ∧
    ((∀ m' ∈ (Translator.normalizeTranslations normWitnessTor {}).1.m_messages,
        m'.m_translations.length =
          if m'.m_plural then
            (getNumerusInfo (Translator.languageAndTerritory normWitnessTor.m_language).1
              (Translator.languageAndTerritory normWitnessTor.m_language).2).2.1.length
          else 1) ∧
      ((Translator.normalizeTranslations normWitnessTor {}).2.m_errors =
          if ∃ m ∈ normWitnessTor.m_messages,
              (if m.m_plural then
                (getNumerusInfo (Translator.languageAndTerritory normWitnessTor.m_language).1
                  (Translator.languageAndTerritory normWitnessTor.m_language).2).2.1.length
              else 1) < m.m_translations.length
          then ({} : ConversionData).m_errors ++ [QmError.truncatedPluralForms]
          else ({} : ConversionData).m_errors)) :=
  ⟨⟨by decide, by decide⟩,
   normalizeTranslations_spec normWitnessTor {} (by decide) (by decide)⟩

/-! ## Claim C8 (confirmed): getNumerusInfo territory fallback -/

theorem entryMatches_mem (e : NumerusTableEntry) (language country : Nat)
    (h : entryMatches e language country = true) : language ∈ e.languages := by
  unfold entryMatches at h
  by_cases he : e.countries.isEmpty = true
  · rw [if_pos he] at h
    rw [Bool.and_eq_true] at h
    have h2 := h.2
    rw [List.contains_iff_exists_mem_beq] at h2
    obtain ⟨a, ha, hab⟩ := h2
    rw [beq_iff_eq] at hab
    rw [← hab] at ha
    exact ha
  · rw [if_neg he] at h
    rw [List.any_eq_true] at h
    obtain ⟨p, hp, hcond⟩ := h
    rw [Bool.and_eq_true, beq_iff_eq, beq_iff_eq] at hcond
    have := List.of_mem_zip hp
    rw [← hcond.1]
    exact this.1

theorem numerusPass_none_of_not_mem (language : Nat)
    (h : ∀ e ∈ numerusTable, language ∉ e.languages) (country : Nat) :
    numerusPass language country = none := by
  unfold numerusPass
  rw [List.find?_eq_none]
  intro e he
  intro hm
  exact h e he (entryMatches_mem e language country hm)

/-- Every language some table entry lists. -/
def numerusTableLanguages : List Nat := (numerusTable.map (·.languages)).join

theorem numerusPass_any_isSome (language : Nat)
    (h : language ∈ numerusTableLanguages) :
    (numerusPass language QLocale.AnyCountry).isSome = true := by
  have hall : numerusTableLanguages.all
      (fun l => (numerusPass l QLocale.AnyCountry).isSome) = true := by decide
  exact List.all_eq_true.mp hall language h

theorem mem_numerusTableLanguages_iff (language : Nat) :
    language ∈ numerusTableLanguages ↔
      ∃ e ∈ numerusTable, language ∈ e.languages := by
  unfold numerusTableLanguages
  simp only [List.mem_join, List.mem_map]
  constructor
  · rintro ⟨ls, ⟨e, he, rfl⟩, hl⟩
    exact ⟨e, he, hl⟩
  · rintro ⟨e, he, hl⟩
    exact ⟨e.languages, ⟨e, he, rfl⟩, hl⟩

/-- C8: getNumerusInfo falls back from a missed specific territory to the
any-territory pass for the same language, and its found flag is false exactly
when the language appears in no entry of the numerus table. -/
theorem getNumerusInfo_fallback (language country : Nat) :
    (numerusPass language country = none →
      getNumerusInfo language country =
        getNumerusInfo language QLocale.AnyCountry) ∧
    ((getNumerusInfo language country).2.2.2 = false ↔
      ∀ e ∈ numerusTable, language ∉ e.languages) := by
  constructor
  · intro hnone
    unfold getNumerusInfo
    rw [hnone]
    by_cases hc : country = QLocale.AnyCountry
    · subst hc
      rw [hnone]
    · simp only [hc, if_false, ite_false]
      cases h2 : numerusPass language QLocale.AnyCountry <;> simp [h2]
  · constructor
    · intro hfalse e he hmem
      have hin : language ∈ numerusTableLanguages :=
        (mem_numerusTableLanguages_iff language).mpr ⟨e, he, hmem⟩
      have hsome := numerusPass_any_isSome language hin
      unfold getNumerusInfo at hfalse
      cases h1 : numerusPass language country with
      | some e1 => rw [h1] at hfalse; simp at hfalse
      | none =>
        rw [h1] at hfalse
        by_cases hc : country = QLocale.AnyCountry
        · rw [hc] at h1
          rw [h1] at hsome
          simp at hsome
        · simp only [hc, if_false, ite_false] at hfalse
          cases h2 : numerusPass language QLocale.AnyCountry with
          | some e2 => rw [h2] at hfalse; simp at hfalse
          | none => rw [h2] at hsome; simp at hsome
    · intro hnot
      have h1 := numerusPass_none_of_not_mem language hnot country
      have h2 := numerusPass_none_of_not_mem language hnot QLocale.AnyCountry
      unfold getNumerusInfo
      rw [h1]
      by_cases hc : country = QLocale.AnyCountry
      · simp [hc]
      · simp [hc, h2]

theorem getNumerusInfo_fallback_witness :
    numerusPass QLocale.Latvian QLocale.Brazil = none ∧
    getNumerusInfo QLocale.Latvian QLocale.Brazil =
      getNumerusInfo QLocale.Latvian QLocale.AnyCountry :=
  ⟨by decide,
   (getNumerusInfo_fallback QLocale.Latvian QLocale.Brazil).1 (by decide)⟩

/-! ## Claim C3 (corrected): structural decode failures -/

end QtLinguist
